import Mathlib

/-!
Shallow embedding of the Orpheus dispatch engine (orpheus-core dispatcher,
planner types and the Orpheus configuration accessor) together with proofs
about its event traces, retry/backoff behaviour and result shapes.

Backends (executors) are external collaborators; their behaviour is
modelled as data: the probe outcome and, for each 1-based try number, the
outcome of the `execute` call (a returned result or a thrown message).
Timestamps (`new Date()`) are modelled as abstract `Nat` instants supplied
by the caller.  The event sink is modelled in two ways: the pure `dispatch`
accumulates every logged event (and every backoff wait) into a trace of
steps, while `dispatchE` threads a fallible sink through the `Except`
monad, mirroring which `logEvent` calls of the source sit inside the
`try`/`catch` block (those are swallowed) and which propagate.
-/

set_option maxRecDepth 8000

namespace Orpheus

/-- Executor identifiers, from `types.ts` (`ExecutorType`). -/
inductive ExecutorType
  | codex
  | sonnet
  | gemini
deriving DecidableEq, Repr, Inhabited

/-- Task status, from `types.ts` (`TaskStatus`). -/
inductive TaskStatus
  | pending
  | running
  | completed
  | failed
deriving DecidableEq, Repr, Inhabited

/-- Task priority, from `types.ts` (`TaskPriority`). -/
inductive TaskPriority
  | low
  | normal
  | high
  | critical
deriving DecidableEq, Repr, Inhabited

/-- Token usage accounting, from `ExecutorResult.usage` in `types.ts`. -/
structure Usage where
  promptTokens : Nat
  completionTokens : Nat
  totalTokens : Nat
deriving DecidableEq, Repr, Inhabited

/-- Result of one executor call, from `types.ts` (`ExecutorResult`). -/
structure ExecutorResult where
  executor : ExecutorType
  success : Bool
  content : String
  usage : Option Usage
  error : Option String
  durationMs : Nat
deriving DecidableEq, Repr, Inhabited

/-- A task, from `types.ts` (`Task`); `metadata` is an opaque key-value
mapping and timestamps are abstract instants. -/
structure Task where
  id : String
  prompt : String
  systemPrompt : Option String
  preferredExecutor : Option ExecutorType
  fallbackExecutors : Option (List ExecutorType)
  priority : TaskPriority
  status : TaskStatus
  parentId : Option String
  metadata : Option (List (String × String))
  createdAt : Nat
  updatedAt : Nat
deriving DecidableEq, Repr, Inhabited

/-- Event kinds, from `types.ts` (`EventType`). -/
inductive EventType
  | task_created
  | task_started
  | task_completed
  | task_failed
  | executor_called
  | executor_responded
  | plan_created
  | system_error
deriving DecidableEq, Repr, Inhabited

/-- The structured payloads the dispatcher actually passes to `logEvent`. -/
inductive EventPayload
  | started (promptSlice : String)
  | called (attempt : Nat)
  | responded (success : Bool) (durationMs : Nat) (usage : Option Usage)
  | completed (executorType : ExecutorType) (attempts : Nat)
  | failed (error : String) (attempts : Nat)
deriving DecidableEq, Repr, Inhabited

/-- An event as handed to `MemoryStore.logEvent` (id and timestamp are
assigned by the sink and are not part of the dispatcher's output). -/
structure LoggedEvent where
  type : EventType
  taskId : String
  executorType : Option ExecutorType
  payload : EventPayload
deriving DecidableEq, Repr, Inhabited

/-- Outcome of `executor.isAvailable()`: a returned boolean or a thrown
error (the dispatcher maps a throw to `false` via `.catch(() => false)`). -/
inductive ProbeOutcome
  | ok (b : Bool)
  | err
deriving DecidableEq, Repr, Inhabited

/-- Outcome of one `executor.execute(task)` call: a returned result or a
thrown error carrying a message. -/
inductive ExecOutcome
  | ok (r : ExecutorResult)
  | thrown (msg : String)
deriving DecidableEq, Repr, Inhabited

/-- An executor as the dispatcher sees it: its declared type, the probe
behaviour, and the outcome of its n-th `execute` call (1-based) within one
position of the executor order. -/
structure Executor where
  type : ExecutorType
  avail : ProbeOutcome
  exec : Nat → ExecOutcome

/-- The executor registry: the dispatcher's `Map<ExecutorType, Executor>`,
modelled as an insertion-ordered association list. -/
abbrev Registry := List (ExecutorType × Executor)

/-- `executors.get(t)`. -/
def regGet (reg : Registry) (t : ExecutorType) : Option Executor :=
  (reg.find? (fun p => p.1 == t)).map (fun p => p.2)

/-- `Array.from(executors.keys())`. -/
def regKeys (reg : Registry) : List ExecutorType :=
  reg.map (fun p => p.1)

/-- Dispatcher options, from `dispatcher.ts` (`DispatcherOptions`). -/
structure DispatcherOptions where
  retryAttempts : Nat
  retryDelayMs : Nat
deriving DecidableEq, Repr, Inhabited

/-- A dispatch result, from `types.ts` (`DispatchResult`). -/
structure DispatchResult where
  task : Task
  result : ExecutorResult
  attempts : Nat
deriving DecidableEq, Repr, Inhabited

/-- One observable step of a dispatch: a `logEvent` call that the sink
accepted, or a backoff `delay(ms)`. -/
inductive Step
  | log (e : LoggedEvent)
  | wait (ms : Nat)
deriving DecidableEq, Repr, Inhabited

/-- `Dispatcher.getExecutorOrder`: the fallback list when non-empty, else
the preferred executor alone, else the registry's key list. -/
def getExecutorOrder (reg : Registry) (task : Task) : List ExecutorType :=
  match task.fallbackExecutors with
  | some fbs =>
      if fbs.length > 0 then fbs
      else
        match task.preferredExecutor with
        | some p => [p]
        | none => regKeys reg
  | none =>
      match task.preferredExecutor with
      | some p => [p]
      | none => regKeys reg

/-- The boolean the dispatcher derives from the probe:
`await executor.isAvailable().catch(() => false)`. -/
def probeBool : ProbeOutcome → Bool
  | .ok b => b
  | .err => false

/-- Whether the order entry `t` is both registered and available. -/
def isAvailableIn (reg : Registry) (t : ExecutorType) : Bool :=
  match regGet reg t with
  | some ex => probeBool ex.avail
  | none => false

/-- Number of order entries that are both registered and available. -/
def availCount (reg : Registry) (order : List ExecutorType) : Nat :=
  (order.filter (fun t => isAvailableIn reg t)).length

/-- State carried through the dispatch loops: accumulated steps, the
attempt counter, the last observed error and the winning result (if any). -/
structure TryOut where
  steps : List Step
  attempts : Nat
  lastError : Option String
  winner : Option ExecutorResult

/-- The inner retry loop of `Dispatcher.dispatch`
(`for (let attempt = 1; attempt <= retryAttempts; attempt++)`), for one
registered, available executor.  `fuel` counts the remaining iterations
(initially `retryAttempts`, with `attempt` starting at 1). -/
def tryLoop (opts : DispatcherOptions) (taskId : String) (etype : ExecutorType)
    (ex : Executor) : Nat → Nat → Nat → Option String → TryOut
  | 0, _, attempts, lastError => ⟨[], attempts, lastError, none⟩
  | fuel + 1, attempt, attempts, lastError =>
      let attempts1 := attempts + 1
      let callStep := Step.log ⟨.executor_called, taskId, some etype, .called attempt⟩
      let waitSteps : List Step :=
        if attempt < opts.retryAttempts then [Step.wait (opts.retryDelayMs * attempt)] else []
      match ex.exec attempt with
      | .ok result =>
          let respStep := Step.log ⟨.executor_responded, taskId, some etype,
            .responded result.success result.durationMs result.usage⟩
          if result.success then
            let doneStep := Step.log ⟨.task_completed, taskId, none, .completed etype attempts1⟩
            ⟨[callStep, respStep, doneStep], attempts1, lastError, some result⟩
          else
            let rest := tryLoop opts taskId etype ex fuel (attempt + 1) attempts1 result.error
            ⟨callStep :: respStep :: (waitSteps ++ rest.steps), rest.attempts, rest.lastError,
              rest.winner⟩
      | .thrown msg =>
          let rest := tryLoop opts taskId etype ex fuel (attempt + 1) attempts1 (some msg)
          ⟨callStep :: (waitSteps ++ rest.steps), rest.attempts, rest.lastError, rest.winner⟩

/-- The outer loop of `Dispatcher.dispatch` over the executor order:
unregistered or unavailable executors are skipped without counting an
attempt; otherwise the retry loop runs and a success stops everything. -/
def execLoop (opts : DispatcherOptions) (reg : Registry) (taskId : String) :
    List ExecutorType → Nat → Option String → TryOut
  | [], attempts, lastError => ⟨[], attempts, lastError, none⟩
  | etype :: restOrder, attempts, lastError =>
      match regGet reg etype with
      | none => execLoop opts reg taskId restOrder attempts lastError
      | some ex =>
          if probeBool ex.avail then
            let t := tryLoop opts taskId etype ex opts.retryAttempts 1 attempts lastError
            match t.winner with
            | some _ => t
            | none =>
                let rest := execLoop opts reg taskId restOrder t.attempts t.lastError
                ⟨t.steps ++ rest.steps, rest.attempts, rest.lastError, rest.winner⟩
          else execLoop opts reg taskId restOrder attempts lastError

/-- The synthetic failure result built when every executor failed:
`{ executor: task.preferredExecutor ?? 'sonnet', success: false,
content: '', error: lastError ?? 'All executors failed', durationMs: 0 }`. -/
def mkFailureResult (task : Task) (lastError : Option String) : ExecutorResult :=
  { executor := task.preferredExecutor.getD ExecutorType.sonnet
    success := false
    content := ""
    usage := none
    error := some (lastError.getD "All executors failed")
    durationMs := 0 }

/-- The `task_started` event emitted at the top of `dispatch`. -/
def startEvent (task : Task) : LoggedEvent :=
  ⟨.task_started, task.id, none, .started (task.prompt.take 100)⟩

/-- `Dispatcher.dispatch`, with the sink modelled as trace accumulation
(every `logEvent` call accepted).  `startTime`/`endTime` stand for the two
`new Date()` instants used to stamp `updatedAt`. -/
def dispatch (opts : DispatcherOptions) (reg : Registry) (task : Task)
    (startTime endTime : Nat) : DispatchResult × List Step :=
  let running := { task with status := TaskStatus.running, updatedAt := startTime }
  let order := getExecutorOrder reg running
  let out := execLoop opts reg task.id order 0 none
  match out.winner with
  | some result =>
      let done := { running with status := TaskStatus.completed, updatedAt := endTime }
      (⟨done, result, out.attempts⟩, Step.log (startEvent task) :: out.steps)
  | none =>
      let failedTask := { running with status := TaskStatus.failed, updatedAt := endTime }
      let failStep := Step.log ⟨.task_failed, task.id, none,
        .failed (out.lastError.getD "All executors failed") out.attempts⟩
      (⟨failedTask, mkFailureResult task out.lastError, out.attempts⟩,
        Step.log (startEvent task) :: (out.steps ++ [failStep]))

/-- The sequential branch of `Dispatcher.dispatchAll`: a loop awaiting one
dispatch at a time and pushing each result. -/
def dispatchAllSeq (opts : DispatcherOptions) (reg : Registry)
    (startTime endTime : Nat) : List Task → List (DispatchResult × List Step)
  | [] => []
  | t :: ts =>
      dispatch opts reg t startTime endTime :: dispatchAllSeq opts reg startTime endTime ts

/-- `Dispatcher.dispatchAll`: `Promise.all` over the mapped dispatches when
`parallel`, else the sequential loop. -/
def dispatchAll (opts : DispatcherOptions) (reg : Registry) (tasks : List Task)
    (parallel : Bool) (startTime endTime : Nat) : List (DispatchResult × List Step) :=
  if parallel then tasks.map (fun t => dispatch opts reg t startTime endTime)
  else dispatchAllSeq opts reg startTime endTime tasks

/-- One `memory.logEvent` call against a fallible sink: the sink either
accepts the event or the call rejects. -/
def logEventE (sink : LoggedEvent → Bool) (e : LoggedEvent) : Except String LoggedEvent :=
  if sink e then Except.ok e else Except.error "sink failure"

/-- The inner retry loop with a fallible sink.  The `executor_called` log
sits outside the source's `try` block, so its failure propagates; the
`executor_responded` and `task_completed` logs sit inside the `try`, so a
sink failure there is caught and treated as a failed attempt. -/
def tryLoopE (opts : DispatcherOptions) (sink : LoggedEvent → Bool) (taskId : String)
    (etype : ExecutorType) (ex : Executor) :
    Nat → Nat → Nat → Option String → Except String TryOut
  | 0, _, attempts, lastError => Except.ok ⟨[], attempts, lastError, none⟩
  | fuel + 1, attempt, attempts, lastError => do
      let attempts1 := attempts + 1
      let callEv : LoggedEvent := ⟨.executor_called, taskId, some etype, .called attempt⟩
      let _ ← logEventE sink callEv
      let callStep := Step.log callEv
      let waitSteps : List Step :=
        if attempt < opts.retryAttempts then [Step.wait (opts.retryDelayMs * attempt)] else []
      match ex.exec attempt with
      | .ok result =>
          let respEv : LoggedEvent := ⟨.executor_responded, taskId, some etype,
            .responded result.success result.durationMs result.usage⟩
          match logEventE sink respEv with
          | .error msg => do
              let rest ← tryLoopE opts sink taskId etype ex fuel (attempt + 1) attempts1 (some msg)
              pure ⟨callStep :: (waitSteps ++ rest.steps), rest.attempts, rest.lastError,
                rest.winner⟩
          | .ok _ =>
              if result.success then
                let doneEv : LoggedEvent :=
                  ⟨.task_completed, taskId, none, .completed etype attempts1⟩
                match logEventE sink doneEv with
                | .error msg => do
                    let rest ←
                      tryLoopE opts sink taskId etype ex fuel (attempt + 1) attempts1 (some msg)
                    pure ⟨callStep :: Step.log respEv :: (waitSteps ++ rest.steps), rest.attempts,
                      rest.lastError, rest.winner⟩
                | .ok _ =>
                    pure ⟨[callStep, Step.log respEv, Step.log doneEv], attempts1, lastError,
                      some result⟩
              else do
                let rest ←
                  tryLoopE opts sink taskId etype ex fuel (attempt + 1) attempts1 result.error
                pure ⟨callStep :: Step.log respEv :: (waitSteps ++ rest.steps), rest.attempts,
                  rest.lastError, rest.winner⟩
      | .thrown msg => do
          let rest ← tryLoopE opts sink taskId etype ex fuel (attempt + 1) attempts1 (some msg)
          pure ⟨callStep :: (waitSteps ++ rest.steps), rest.attempts, rest.lastError, rest.winner⟩

/-- The outer loop over the executor order with a fallible sink. -/
def execLoopE (opts : DispatcherOptions) (reg : Registry) (sink : LoggedEvent → Bool)
    (taskId : String) : List ExecutorType → Nat → Option String → Except String TryOut
  | [], attempts, lastError => Except.ok ⟨[], attempts, lastError, none⟩
  | etype :: restOrder, attempts, lastError =>
      match regGet reg etype with
      | none => execLoopE opts reg sink taskId restOrder attempts lastError
      | some ex =>
          if probeBool ex.avail then do
            let t ← tryLoopE opts sink taskId etype ex opts.retryAttempts 1 attempts lastError
            match t.winner with
            | some _ => pure t
            | none => do
                let rest ← execLoopE opts reg sink taskId restOrder t.attempts t.lastError
                pure ⟨t.steps ++ rest.steps, rest.attempts, rest.lastError, rest.winner⟩
          else execLoopE opts reg sink taskId restOrder attempts lastError

/-- `Dispatcher.dispatch` with a fallible sink: the `task_started` and
`task_failed` logs sit outside any `try` block, so their failures
propagate out of the call. -/
def dispatchE (opts : DispatcherOptions) (reg : Registry) (sink : LoggedEvent → Bool)
    (task : Task) (startTime endTime : Nat) : Except String (DispatchResult × List Step) := do
  let running := { task with status := TaskStatus.running, updatedAt := startTime }
  let _ ← logEventE sink (startEvent task)
  let order := getExecutorOrder reg running
  let out ← execLoopE opts reg sink task.id order 0 none
  match out.winner with
  | some result =>
      let done := { running with status := TaskStatus.completed, updatedAt := endTime }
      pure (⟨done, result, out.attempts⟩, Step.log (startEvent task) :: out.steps)
  | none =>
      let failedTask := { running with status := TaskStatus.failed, updatedAt := endTime }
      let failEv : LoggedEvent := ⟨.task_failed, task.id, none,
        .failed (out.lastError.getD "All executors failed") out.attempts⟩
      let _ ← logEventE sink failEv
      pure (⟨failedTask, mkFailureResult task out.lastError, out.attempts⟩,
        Step.log (startEvent task) :: (out.steps ++ [Step.log failEv]))

/-- Log level, from `OrpheusConfig.logLevel` in `types.ts`. -/
inductive LogLevel
  | debug
  | info
  | warn
  | error
deriving DecidableEq, Repr, Inhabited

/-- Planner configuration, from `types.ts` (`PlannerConfig`). -/
structure PlannerConfig where
  maxSubtasks : Nat
  defaultExecutor : ExecutorType
  parallelExecution : Bool
deriving DecidableEq, Repr, Inhabited

/-- The Orpheus configuration, from `types.ts` (`OrpheusConfig`). -/
structure OrpheusConfig where
  openaiApiKey : Option String
  anthropicApiKey : Option String
  googleApiKey : Option String
  memoryPath : String
  logLevel : LogLevel
  planner : PlannerConfig
deriving DecidableEq, Repr, Inhabited

/-- Translation of `key ? '[REDACTED]' : undefined`: in JS the empty
string is falsy, so an empty-string key maps to `undefined`. -/
def redactKey (k : Option String) : Option String :=
  match k with
  | some s => if s = "" then none else some "[REDACTED]"
  | none => none

/-- `Orpheus.getConfig`: a copy of the configuration with each API key
replaced through `redactKey`. -/
def getConfig (c : OrpheusConfig) : OrpheusConfig :=
  { c with
    openaiApiKey := redactKey c.openaiApiKey
    anthropicApiKey := redactKey c.anthropicApiKey
    googleApiKey := redactKey c.googleApiKey }

/-- JS truthiness of an optional string: present and non-empty. -/
def keyTruthy (k : Option String) : Bool :=
  match k with
  | some s => !(s == "")
  | none => false

/-- The events of a step trace (waits dropped), i.e. what the sink
received for this task. -/
def eventsOf (steps : List Step) : List LoggedEvent :=
  steps.filterMap (fun s => match s with | .log e => some e | .wait _ => none)

/-- Whether an event is one of the two terminal task events. -/
def isTerminalEvent (e : LoggedEvent) : Bool :=
  e.type == EventType.task_completed || e.type == EventType.task_failed

/-- Scans an event sequence and checks that every `executor_called` event
is immediately followed by an `executor_responded` event of the same
executor (in particular no trailing `executor_called`). -/
def pairedOk : List LoggedEvent → Bool
  | [] => true
  | e :: rest =>
      if e.type == EventType.executor_called then
        match rest with
        | [] => false
        | e2 :: _ =>
            (e2.type == EventType.executor_responded) && (e2.executorType == e.executorType)
              && pairedOk rest
      else pairedOk rest

/-- Whether a step is a backoff wait. -/
def isWaitStep : Step → Bool
  | .wait _ => true
  | .log _ => false

/-- The 1-based try number carried by an `executor_called` log step. -/
def calledAttempt : Step → Option Nat
  | .log e =>
      match e.payload with
      | .called t => if e.type == EventType.executor_called then some t else none
      | _ => none
  | .wait _ => none

/-- Adjacent-step discipline of linear backoff, in both directions: a
wait step must be immediately followed by the `executor_called` step of a
try `t ≥ 2` and equal `base-delay × (t - 1)`; conversely the call of a
retry `t ≥ 2` must be immediately preceded by exactly that wait (so the
wait does occur after every unsuccessful non-final try), while a
backend's first try (`t = 1`) is never immediately preceded by a wait. -/
def stepPairOk (d : Nat) (a b : Step) : Bool :=
  (match a with
   | .wait m =>
       match calledAttempt b with
       | some t => decide (2 ≤ t) && (m == d * (t - 1))
       | none => false
   | .log _ => true)
  && (match calledAttempt b with
      | some t => if t == 1 then !(isWaitStep a) else a == Step.wait (d * (t - 1))
      | none => true)

/-- The trace does not end in a wait step. -/
def lastNotWait (steps : List Step) : Bool :=
  match steps.getLast? with
  | some s => !(isWaitStep s)
  | none => true

/-- A failed try: the call returned an unsuccessful result or threw. -/
def failedOutcome : ExecOutcome → Prop
  | .ok r => r.success = false
  | .thrown _ => True

/-- An executor none of whose tries ever succeeds. -/
def AlwaysFails (ex : Executor) : Prop := ∀ n, failedOutcome (ex.exec n)

/-- Every registered executor's every try returns rather than throws. -/
def NoThrow (reg : Registry) : Prop :=
  ∀ t ex n msg, regGet reg t = some ex → ex.exec n ≠ ExecOutcome.thrown msg

/-- Number of `executor_called` events attributed to executor `b`. -/
def calledCountFor (b : ExecutorType) (es : List LoggedEvent) : Nat :=
  (es.filter (fun e =>
    (e.type == EventType.executor_called) && (e.executorType == some b))).length

/-! ## General structural lemmas -/

/-- The executor order only depends on the task's routing fields, so the
status/`updatedAt` update at the top of `dispatch` does not change it. -/
theorem getExecutorOrder_update (reg : Registry) (task : Task) (st : TaskStatus) (u : Nat) :
    getExecutorOrder reg { task with status := st, updatedAt := u } =
      getExecutorOrder reg task := rfl

/-- A winner coming out of the retry loop is a successful result (the
`return` in the loop body is guarded by `result.success`). -/
theorem tryLoop_winner_success (opts : DispatcherOptions) (taskId : String)
    (etype : ExecutorType) (ex : Executor) :
    ∀ fuel attempt attempts lastError r,
      (tryLoop opts taskId etype ex fuel attempt attempts lastError).winner = some r →
      r.success = true := by
  intro fuel
  induction fuel with
  | zero =>
      intro attempt attempts lastError r h
      simp [tryLoop] at h
  | succ n ih =>
      intro attempt attempts lastError r h
      simp only [tryLoop] at h
      cases hx : ex.exec attempt with
      | ok result =>
          rw [hx] at h
          by_cases hs : result.success = true
          · simp [hs] at h
            exact h ▸ hs
          · simp only [Bool.not_eq_true] at hs
            simp [hs] at h
            exact ih _ _ _ _ h
      | thrown msg =>
          rw [hx] at h
          simp at h
          exact ih _ _ _ _ h

/-- A winner coming out of the executor loop is a successful result. -/
theorem execLoop_winner_success (opts : DispatcherOptions) (reg : Registry) (taskId : String) :
    ∀ order attempts lastError r,
      (execLoop opts reg taskId order attempts lastError).winner = some r →
      r.success = true := by
  intro order
  induction order with
  | nil =>
      intro attempts lastError r h
      simp [execLoop] at h
  | cons etype rest ih =>
      intro attempts lastError r h
      simp only [execLoop] at h
      cases hg : regGet reg etype with
      | none =>
          rw [hg] at h
          exact ih _ _ _ h
      | some ex =>
          rw [hg] at h
          by_cases ha : probeBool ex.avail = true
          · simp only [ha, if_true] at h
            cases hw : (tryLoop opts taskId etype ex opts.retryAttempts 1 attempts
                lastError).winner with
            | none => rw [hw] at h; simp at h; exact ih _ _ _ h
            | some r0 =>
                rw [hw] at h
                simp at h
                exact tryLoop_winner_success opts taskId etype ex _ _ _ _ r h
          · simp only [Bool.not_eq_true] at ha
            simp only [ha, Bool.false_eq_true, if_false] at h
            exact ih _ _ _ h

/-- When the loop produces no winner, the dispatch result is the synthetic
failure built from the loop's last observed error. -/
theorem dispatch_result_none (opts : DispatcherOptions) (reg : Registry) (task : Task)
    (s e : Nat)
    (hw : (execLoop opts reg task.id (getExecutorOrder reg task) 0 none).winner = none) :
    (dispatch opts reg task s e).1.result =
      mkFailureResult task
        (execLoop opts reg task.id (getExecutorOrder reg task) 0 none).lastError := by
  simp [dispatch, getExecutorOrder_update, hw]

/-- An unsuccessful dispatch result is exactly the synthetic failure. -/
theorem dispatch_failed_result (opts : DispatcherOptions) (reg : Registry) (task : Task)
    (s e : Nat) (h : (dispatch opts reg task s e).1.result.success = false) :
    (dispatch opts reg task s e).1.result =
      mkFailureResult task
        (execLoop opts reg task.id (getExecutorOrder reg task) 0 none).lastError := by
  cases hw : (execLoop opts reg task.id (getExecutorOrder reg task) 0 none).winner with
  | some r =>
      exfalso
      have hr := execLoop_winner_success opts reg task.id _ _ _ _ hw
      have hres : (dispatch opts reg task s e).1.result = r := by
        simp [dispatch, getExecutorOrder_update, hw]
      rw [hres, hr] at h
      exact Bool.true_eq_false.mp h
  | none => exact dispatch_result_none opts reg task s e hw

/-! ## C1: empty executor order -/

def c1Opts : DispatcherOptions := ⟨3, 1000⟩

def c1Task : Task :=
  ⟨"task-1", "p", none, none, none, TaskPriority.normal, TaskStatus.pending, none, none, 0, 0⟩

/-- C1 (counterexample): on a task whose executor order is empty, dispatch
does not raise a plan error — with an accepting sink it returns normally —
and it does append events: a `task_started` and a `task_failed`. -/
theorem c1_empty_order_counterexample :
    getExecutorOrder [] c1Task = [] ∧
    dispatchE c1Opts [] (fun _ => true) c1Task 0 1 =
      Except.ok (dispatch c1Opts [] c1Task 0 1) ∧
    eventsOf (dispatch c1Opts [] c1Task 0 1).2 =
      [⟨.task_started, "task-1", none, .started "p"⟩,
       ⟨.task_failed, "task-1", none, .failed "All executors failed" 0⟩] :=
  ⟨rfl, rfl, rfl⟩

/-- C1 (amended): for every task whose executor order is empty, dispatch
does not raise; it appends exactly a `task_started` and a `task_failed`
event (no executor events) and returns a synthetic failure with zero
attempts. -/
theorem c1_empty_order_amended (opts : DispatcherOptions) (reg : Registry) (task : Task)
    (s e : Nat) (h : getExecutorOrder reg task = []) :
    (dispatch opts reg task s e).1.attempts = 0 ∧
    (dispatch opts reg task s e).1.result = mkFailureResult task none ∧
    (dispatch opts reg task s e).2 =
      [Step.log (startEvent task),
       Step.log ⟨.task_failed, task.id, none, .failed "All executors failed" 0⟩] := by
  simp [dispatch, getExecutorOrder_update, h, execLoop]

/-- C1 witness: the amended theorem applied to a concrete empty-order
dispatch. -/
theorem c1_empty_order_witness :
    getExecutorOrder [] c1Task = [] ∧ (dispatch c1Opts [] c1Task 0 1).1.attempts = 0 :=
  ⟨by decide, (c1_empty_order_amended c1Opts [] c1Task 0 1 (by decide)).1⟩

/-! ## C4: attribution of the synthetic failure result -/

def c4Exec : Executor := ⟨.gemini, .ok true,
  fun _ => ExecOutcome.ok ⟨.gemini, false, "", none, some "gemini failed", 5⟩⟩

def c4Reg : Registry := [(.gemini, c4Exec)]

def c4Task : Task :=
  ⟨"task-4", "p", none, none, some [.gemini], .normal, .pending, none, none, 0, 0⟩

/-- C4 (counterexample): a dispatch in which no backend succeeds, whose
plan's first (and only) entry is `gemini` and whose task has no preferred
executor: the synthetic failure is attributed to the constant default
`sonnet`, which is neither the plan's first entry nor a previously
preferred backend. -/
theorem c4_attribution_counterexample :
    (getExecutorOrder c4Reg c4Task).head? = some ExecutorType.gemini ∧
    c4Task.preferredExecutor = none ∧
    (dispatch ⟨1, 10⟩ c4Reg c4Task 0 1).1.result.success = false ∧
    (dispatch ⟨1, 10⟩ c4Reg c4Task 0 1).1.result.executor = ExecutorType.sonnet ∧
    ExecutorType.sonnet ≠ ExecutorType.gemini := by decide

/-- C4 (amended): whenever no backend succeeds, the returned outcome is
the synthetic failure: its executor identifier is the task's previously
preferred backend when one is set and the constant default `sonnet`
otherwise (not in general the plan's first entry); success is false, the
error is the last observed error or the generic all-executors-failed
message, the content is empty and the duration is zero. -/
theorem c4_failure_shape (opts : DispatcherOptions) (reg : Registry) (task : Task)
    (s e : Nat) (h : (dispatch opts reg task s e).1.result.success = false) :
    (dispatch opts reg task s e).1.result.executor =
      task.preferredExecutor.getD ExecutorType.sonnet ∧
    (dispatch opts reg task s e).1.result.content = "" ∧
    (dispatch opts reg task s e).1.result.durationMs = 0 ∧
    (dispatch opts reg task s e).1.result.error =
      some ((execLoop opts reg task.id (getExecutorOrder reg task) 0
        none).lastError.getD "All executors failed") := by
  rw [dispatch_failed_result opts reg task s e h]
  exact ⟨rfl, rfl, rfl, rfl⟩

/-- C4 witness: the amended theorem applied to the concrete all-fail
dispatch. -/
theorem c4_failure_shape_witness :
    (dispatch ⟨1, 10⟩ c4Reg c4Task 0 1).1.result.success = false ∧
    (dispatch ⟨1, 10⟩ c4Reg c4Task 0 1).1.result.executor = ExecutorType.sonnet :=
  ⟨by decide, by
    have h := c4_failure_shape ⟨1, 10⟩ c4Reg c4Task 0 1 (by decide)
    simpa [c4Task] using h.1⟩

/-! ## C10: API-key redaction in getConfig -/

def c10Planner : PlannerConfig := ⟨10, .sonnet, false⟩

def c10CfgA : OrpheusConfig := ⟨some "", none, none, "./orpheus.db", .info, c10Planner⟩

def c10CfgB : OrpheusConfig :=
  ⟨some "sk-live-key", none, none, "./orpheus.db", .info, c10Planner⟩

/-- C10 (counterexample): two configurations with the same keys present
(`openaiApiKey` set in both) that differ only in the key strings, but
whose `getConfig` outputs differ: the empty-string key is mapped to
`undefined` rather than `[REDACTED]`, because the source tests JS
truthiness rather than presence. -/
theorem c10_redaction_counterexample :
    c10CfgA.openaiApiKey.isSome = true ∧ c10CfgB.openaiApiKey.isSome = true ∧
    c10CfgA.anthropicApiKey = c10CfgB.anthropicApiKey ∧
    c10CfgA.googleApiKey = c10CfgB.googleApiKey ∧
    c10CfgA.memoryPath = c10CfgB.memoryPath ∧
    c10CfgA.logLevel = c10CfgB.logLevel ∧
    c10CfgA.planner = c10CfgB.planner ∧
    getConfig c10CfgA ≠ getConfig c10CfgB := by decide

/-- Redaction in terms of JS truthiness. -/
theorem redactKey_eq (k : Option String) :
    redactKey k = if keyTruthy k then some "[REDACTED]" else none := by
  cases k with
  | none => rfl
  | some s =>
      by_cases hs : s = ""
      · simp [redactKey, keyTruthy, hs]
      · simp [redactKey, keyTruthy, hs]

/-- C10 (amended): configurations that agree on the truthiness of each API
key (both non-empty, or both absent-or-empty) and on the remaining fields
produce equal `getConfig` outputs, and each output key is `[REDACTED]`
when the input key is non-empty and `undefined` otherwise — so the actual
key strings never appear in the returned configuration. -/
theorem c10_redaction_amended (c1 c2 : OrpheusConfig)
    (h1 : keyTruthy c1.openaiApiKey = keyTruthy c2.openaiApiKey)
    (h2 : keyTruthy c1.anthropicApiKey = keyTruthy c2.anthropicApiKey)
    (h3 : keyTruthy c1.googleApiKey = keyTruthy c2.googleApiKey)
    (h4 : c1.memoryPath = c2.memoryPath) (h5 : c1.logLevel = c2.logLevel)
    (h6 : c1.planner = c2.planner) :
    getConfig c1 = getConfig c2 ∧
    (getConfig c1).openaiApiKey =
      (if keyTruthy c1.openaiApiKey then some "[REDACTED]" else none) ∧
    (getConfig c1).anthropicApiKey =
      (if keyTruthy c1.anthropicApiKey then some "[REDACTED]" else none) ∧
    (getConfig c1).googleApiKey =
      (if keyTruthy c1.googleApiKey then some "[REDACTED]" else none) := by
  refine ⟨?_, by simp [getConfig, redactKey_eq], by simp [getConfig, redactKey_eq],
    by simp [getConfig, redactKey_eq]⟩
  simp [getConfig, redactKey_eq, h1, h2, h3, h4, h5, h6]

/-- C10 witness: the amended theorem applied to two concrete
configurations differing only in the value of a truthy key. -/
theorem c10_redaction_witness :
    getConfig c10CfgB = getConfig { c10CfgB with openaiApiKey := some "other-key" } ∧
    (getConfig c10CfgB).openaiApiKey = some "[REDACTED]" := by
  have h := c10_redaction_amended c10CfgB { c10CfgB with openaiApiKey := some "other-key" }
    (by decide) (by decide) (by decide) (by decide) (by decide) (by decide)
  exact ⟨h.1, by rw [h.2.1]; decide⟩

/-! ## C6: unavailable backends contribute nothing -/

/-- Events distribute over step-trace concatenation. -/
theorem eventsOf_append (xs ys : List Step) :
    eventsOf (xs ++ ys) = eventsOf xs ++ eventsOf ys := by
  simp [eventsOf]

/-- Wait steps carry no events. -/
theorem eventsOf_waits (c : Prop) [Decidable c] (m : Nat) :
    eventsOf (if c then [Step.wait m] else []) = [] := by
  split <;> rfl

/-- Events of a logged step. -/
theorem eventsOf_log_cons (e : LoggedEvent) (rest : List Step) :
    eventsOf (Step.log e :: rest) = e :: eventsOf rest := rfl

/-- Events of a wait step. -/
theorem eventsOf_wait_cons (m : Nat) (rest : List Step) :
    eventsOf (Step.wait m :: rest) = eventsOf rest := rfl

/-- No events in an empty trace. -/
theorem eventsOf_nil : eventsOf [] = [] := rfl

/-- Events of a single log step. -/
theorem eventsOf_single_log (ev : LoggedEvent) : eventsOf [Step.log ev] = [ev] := rfl

/-- The call count of an empty sequence. -/
theorem calledCountFor_nil (b : ExecutorType) : calledCountFor b [] = 0 := rfl

/-- The call count distributes over concatenation. -/
theorem calledCountFor_append (b : ExecutorType) (xs ys : List LoggedEvent) :
    calledCountFor b (xs ++ ys) = calledCountFor b xs + calledCountFor b ys := by
  simp [calledCountFor, List.filter_append]

/-- The call count over a cons, as an if-expression simp can evaluate. -/
theorem calledCountFor_cons (b : ExecutorType) (e : LoggedEvent) (es : List LoggedEvent) :
    calledCountFor b (e :: es) =
      calledCountFor b es +
        (if e.type = EventType.executor_called ∧ e.executorType = some b then 1 else 0) := by
  by_cases h1 : e.type = EventType.executor_called
  · by_cases h2 : e.executorType = some b
    · simp [calledCountFor, List.filter_cons, h1, h2]
    · simp [calledCountFor, List.filter_cons, h1, h2]
  · simp [calledCountFor, List.filter_cons, h1]

/-- The retry loop of executor `etype ≠ b` contributes no `executor_called`
events attributed to `b`. -/
theorem tryLoop_calledCount_ne (opts : DispatcherOptions) (taskId : String)
    (etype b : ExecutorType) (ex : Executor) (hne : etype ≠ b) :
    ∀ fuel attempt attempts lastError,
      calledCountFor b
        (eventsOf (tryLoop opts taskId etype ex fuel attempt attempts lastError).steps)
        = 0 := by
  intro fuel
  induction fuel with
  | zero => intro attempt attempts lastError; rfl
  | succ n ih =>
      intro attempt attempts lastError
      simp only [tryLoop]
      cases hx : ex.exec attempt with
      | ok result =>
          by_cases hs : result.success = true
          · simp [hs, eventsOf_log_cons, eventsOf_nil, calledCountFor_cons,
              calledCountFor_nil, hne]
          · simp only [Bool.not_eq_true] at hs
            simp [hs, eventsOf_log_cons, eventsOf_append, eventsOf_waits,
              calledCountFor_cons, calledCountFor_append, hne, ih]
      | thrown msg =>
          simp [eventsOf_log_cons, eventsOf_append, eventsOf_waits, calledCountFor_cons,
            calledCountFor_append, hne, ih]

/-- If `b` is registered but unavailable, the executor loop logs no
`executor_called` event attributed to `b`. -/
theorem execLoop_calledCount (opts : DispatcherOptions) (reg : Registry) (taskId : String)
    (b : ExecutorType) (ex : Executor) (hreg : regGet reg b = some ex)
    (hav : probeBool ex.avail = false) :
    ∀ order attempts lastError,
      calledCountFor b (eventsOf (execLoop opts reg taskId order attempts lastError).steps)
        = 0 := by
  intro order
  induction order with
  | nil => intro attempts lastError; rfl
  | cons etype rest ih =>
      intro attempts lastError
      simp only [execLoop]
      by_cases heq : etype = b
      · subst heq
        rw [hreg]
        simp [hav, ih]
      · cases hg : regGet reg etype with
        | none => simp [ih]
        | some ex2 =>
            by_cases ha : probeBool ex2.avail = true
            · simp only [ha, if_true]
              cases hw : (tryLoop opts taskId etype ex2 opts.retryAttempts 1 attempts
                  lastError).winner with
              | some r =>
                  simp only [hw]
                  exact tryLoop_calledCount_ne opts taskId etype b ex2 heq _ _ _ _
              | none =>
                  simp [hw, eventsOf_append, calledCountFor_append,
                    tryLoop_calledCount_ne opts taskId etype b ex2 heq, ih]
            · simp only [Bool.not_eq_true] at ha
              simp [ha, ih]

/-- C6: for every backend whose availability probe returns false or
throws, that backend contributes zero `executor_called` events, whatever
the retry count and the rest of the plan. -/
theorem c6_unavailable_no_calls (opts : DispatcherOptions) (reg : Registry) (task : Task)
    (s e : Nat) (b : ExecutorType) (ex : Executor)
    (hreg : regGet reg b = some ex) (hav : probeBool ex.avail = false) :
    calledCountFor b (eventsOf (dispatch opts reg task s e).2) = 0 := by
  have hloop := execLoop_calledCount opts reg task.id b ex hreg hav
    (getExecutorOrder reg task) 0 none
  cases hw : (execLoop opts reg task.id (getExecutorOrder reg task) 0 none).winner with
  | some r =>
      have hsteps : (dispatch opts reg task s e).2 =
          Step.log (startEvent task) ::
            (execLoop opts reg task.id (getExecutorOrder reg task) 0 none).steps := by
        simp [dispatch, getExecutorOrder_update, hw]
      rw [hsteps, eventsOf_log_cons, calledCountFor_cons, hloop]
      simp [startEvent]
  | none =>
      have hsteps : (dispatch opts reg task s e).2 =
          Step.log (startEvent task) ::
            ((execLoop opts reg task.id (getExecutorOrder reg task) 0 none).steps ++
              [Step.log ⟨.task_failed, task.id, none,
                .failed ((execLoop opts reg task.id (getExecutorOrder reg task) 0
                  none).lastError.getD "All executors failed")
                  (execLoop opts reg task.id (getExecutorOrder reg task) 0
                    none).attempts⟩]) := by
        simp [dispatch, getExecutorOrder_update, hw]
      rw [hsteps, eventsOf_log_cons, calledCountFor_cons, eventsOf_append,
        calledCountFor_append, hloop, eventsOf_log_cons, eventsOf_nil,
        calledCountFor_cons, calledCountFor_nil]
      simp [startEvent]

def c6Exec : Executor := ⟨.codex, .ok false, fun _ => ExecOutcome.thrown "never reached"⟩

def c6Reg : Registry := [(.codex, c6Exec)]

def c6Task : Task :=
  ⟨"task-6", "p", none, none, some [.codex], .normal, .pending, none, none, 0, 0⟩

/-- C6 witness: the concrete scenario of the claim — plan `[A]`, retries
1, `A` unavailable — gives zero attempts, a failed outcome, exactly the
events `task_started, task_failed`, and (by the theorem) zero
`executor_called` events for `A`. -/
theorem c6_unavailable_no_calls_witness :
    (dispatch ⟨1, 10⟩ c6Reg c6Task 0 1).1.attempts = 0 ∧
    (dispatch ⟨1, 10⟩ c6Reg c6Task 0 1).1.result.success = false ∧
    (dispatch ⟨1, 10⟩ c6Reg c6Task 0 1).2 =
      [Step.log (startEvent c6Task),
       Step.log ⟨.task_failed, "task-6", none, .failed "All executors failed" 0⟩] ∧
    calledCountFor ExecutorType.codex (eventsOf (dispatch ⟨1, 10⟩ c6Reg c6Task 0 1).2) = 0 :=
  ⟨by decide, by decide, by decide,
    c6_unavailable_no_calls ⟨1, 10⟩ c6Reg c6Task 0 1 ExecutorType.codex c6Exec
      rfl rfl⟩

/-! ## Unfolding equations for the dispatch loops -/

/-- The `executor_called` log step of one try. -/
def callStepOf (taskId : String) (etype : ExecutorType) (attempt : Nat) : Step :=
  Step.log ⟨.executor_called, taskId, some etype, .called attempt⟩

/-- The `executor_responded` log step of one returned call. -/
def respStepOf (taskId : String) (etype : ExecutorType) (r : ExecutorResult) : Step :=
  Step.log ⟨.executor_responded, taskId, some etype,
    .responded r.success r.durationMs r.usage⟩

/-- The `task_completed` log step of a winning call. -/
def doneStepOf (taskId : String) (etype : ExecutorType) (attempts : Nat) : Step :=
  Step.log ⟨.task_completed, taskId, none, .completed etype attempts⟩

/-- The backoff wait after a non-final try. -/
def waitStepsOf (opts : DispatcherOptions) (attempt : Nat) : List Step :=
  if attempt < opts.retryAttempts then [Step.wait (opts.retryDelayMs * attempt)] else []

theorem tryLoop_zero (opts : DispatcherOptions) (taskId : String) (etype : ExecutorType)
    (ex : Executor) (attempt attempts : Nat) (lastError : Option String) :
    tryLoop opts taskId etype ex 0 attempt attempts lastError
      = ⟨[], attempts, lastError, none⟩ := rfl

theorem tryLoop_succ_win (opts : DispatcherOptions) (taskId : String) (etype : ExecutorType)
    (ex : Executor) (fuel attempt attempts : Nat) (lastError : Option String)
    (result : ExecutorResult) (hx : ex.exec attempt = ExecOutcome.ok result)
    (hs : result.success = true) :
    tryLoop opts taskId etype ex (fuel + 1) attempt attempts lastError
      = ⟨[callStepOf taskId etype attempt, respStepOf taskId etype result,
          doneStepOf taskId etype (attempts + 1)], attempts + 1, lastError, some result⟩ := by
  simp [tryLoop, hx, hs, callStepOf, respStepOf, doneStepOf]

theorem tryLoop_succ_fail (opts : DispatcherOptions) (taskId : String)
    (etype : ExecutorType) (ex : Executor) (fuel attempt attempts : Nat)
    (lastError : Option String) (result : ExecutorResult)
    (hx : ex.exec attempt = ExecOutcome.ok result) (hs : result.success = false) :
    tryLoop opts taskId etype ex (fuel + 1) attempt attempts lastError
      = ⟨callStepOf taskId etype attempt :: respStepOf taskId etype result ::
            (waitStepsOf opts attempt ++
              (tryLoop opts taskId etype ex fuel (attempt + 1) (attempts + 1)
                result.error).steps),
          (tryLoop opts taskId etype ex fuel (attempt + 1) (attempts + 1)
            result.error).attempts,
          (tryLoop opts taskId etype ex fuel (attempt + 1) (attempts + 1)
            result.error).lastError,
          (tryLoop opts taskId etype ex fuel (attempt + 1) (attempts + 1)
            result.error).winner⟩ := by
  simp [tryLoop, hx, hs, callStepOf, respStepOf, waitStepsOf]

theorem tryLoop_succ_thrown (opts : DispatcherOptions) (taskId : String)
    (etype : ExecutorType) (ex : Executor) (fuel attempt attempts : Nat)
    (lastError : Option String) (msg : String)
    (hx : ex.exec attempt = ExecOutcome.thrown msg) :
    tryLoop opts taskId etype ex (fuel + 1) attempt attempts lastError
      = ⟨callStepOf taskId etype attempt ::
            (waitStepsOf opts attempt ++
              (tryLoop opts taskId etype ex fuel (attempt + 1) (attempts + 1)
                (some msg)).steps),
          (tryLoop opts taskId etype ex fuel (attempt + 1) (attempts + 1)
            (some msg)).attempts,
          (tryLoop opts taskId etype ex fuel (attempt + 1) (attempts + 1)
            (some msg)).lastError,
          (tryLoop opts taskId etype ex fuel (attempt + 1) (attempts + 1)
            (some msg)).winner⟩ := by
  simp [tryLoop, hx, callStepOf, waitStepsOf]

theorem execLoop_nil (opts : DispatcherOptions) (reg : Registry) (taskId : String)
    (attempts : Nat) (lastError : Option String) :
    execLoop opts reg taskId [] attempts lastError = ⟨[], attempts, lastError, none⟩ := rfl

theorem execLoop_cons_none (opts : DispatcherOptions) (reg : Registry) (taskId : String)
    (etype : ExecutorType) (rest : List ExecutorType) (attempts : Nat)
    (lastError : Option String) (hg : regGet reg etype = none) :
    execLoop opts reg taskId (etype :: rest) attempts lastError
      = execLoop opts reg taskId rest attempts lastError := by
  simp [execLoop, hg]

theorem execLoop_cons_unavail (opts : DispatcherOptions) (reg : Registry) (taskId : String)
    (etype : ExecutorType) (rest : List ExecutorType) (attempts : Nat)
    (lastError : Option String) (ex : Executor) (hg : regGet reg etype = some ex)
    (ha : probeBool ex.avail = false) :
    execLoop opts reg taskId (etype :: rest) attempts lastError
      = execLoop opts reg taskId rest attempts lastError := by
  simp [execLoop, hg, ha]

theorem execLoop_cons_win (opts : DispatcherOptions) (reg : Registry) (taskId : String)
    (etype : ExecutorType) (rest : List ExecutorType) (attempts : Nat)
    (lastError : Option String) (ex : Executor) (r : ExecutorResult)
    (hg : regGet reg etype = some ex) (ha : probeBool ex.avail = true)
    (hw : (tryLoop opts taskId etype ex opts.retryAttempts 1 attempts lastError).winner
      = some r) :
    execLoop opts reg taskId (etype :: rest) attempts lastError
      = tryLoop opts taskId etype ex opts.retryAttempts 1 attempts lastError := by
  simp [execLoop, hg, ha, hw]

theorem execLoop_cons_lose (opts : DispatcherOptions) (reg : Registry) (taskId : String)
    (etype : ExecutorType) (rest : List ExecutorType) (attempts : Nat)
    (lastError : Option String) (ex : Executor)
    (hg : regGet reg etype = some ex) (ha : probeBool ex.avail = true)
    (hw : (tryLoop opts taskId etype ex opts.retryAttempts 1 attempts lastError).winner
      = none) :
    execLoop opts reg taskId (etype :: rest) attempts lastError
      = ⟨(tryLoop opts taskId etype ex opts.retryAttempts 1 attempts lastError).steps ++
            (execLoop opts reg taskId rest
              (tryLoop opts taskId etype ex opts.retryAttempts 1 attempts
                lastError).attempts
              (tryLoop opts taskId etype ex opts.retryAttempts 1 attempts
                lastError).lastError).steps,
          (execLoop opts reg taskId rest
            (tryLoop opts taskId etype ex opts.retryAttempts 1 attempts lastError).attempts
            (tryLoop opts taskId etype ex opts.retryAttempts 1 attempts
              lastError).lastError).attempts,
          (execLoop opts reg taskId rest
            (tryLoop opts taskId etype ex opts.retryAttempts 1 attempts lastError).attempts
            (tryLoop opts taskId etype ex opts.retryAttempts 1 attempts
              lastError).lastError).lastError,
          (execLoop opts reg taskId rest
            (tryLoop opts taskId etype ex opts.retryAttempts 1 attempts lastError).attempts
            (tryLoop opts taskId etype ex opts.retryAttempts 1 attempts
              lastError).lastError).winner⟩ := by
  simp [execLoop, hg, ha, hw]

/-- Steps-projection corollaries of the unfolding equations. -/
theorem tryLoop_zero_steps (opts : DispatcherOptions) (taskId : String)
    (etype : ExecutorType) (ex : Executor) (attempt attempts : Nat)
    (lastError : Option String) :
    (tryLoop opts taskId etype ex 0 attempt attempts lastError).steps = [] := rfl

theorem tryLoop_succ_win_steps (opts : DispatcherOptions) (taskId : String)
    (etype : ExecutorType) (ex : Executor) (fuel attempt attempts : Nat)
    (lastError : Option String) (result : ExecutorResult)
    (hx : ex.exec attempt = ExecOutcome.ok result) (hs : result.success = true) :
    (tryLoop opts taskId etype ex (fuel + 1) attempt attempts lastError).steps
      = [callStepOf taskId etype attempt, respStepOf taskId etype result,
          doneStepOf taskId etype (attempts + 1)] := by
  rw [tryLoop_succ_win opts taskId etype ex fuel attempt attempts lastError result hx hs]

theorem tryLoop_succ_fail_steps (opts : DispatcherOptions) (taskId : String)
    (etype : ExecutorType) (ex : Executor) (fuel attempt attempts : Nat)
    (lastError : Option String) (result : ExecutorResult)
    (hx : ex.exec attempt = ExecOutcome.ok result) (hs : result.success = false) :
    (tryLoop opts taskId etype ex (fuel + 1) attempt attempts lastError).steps
      = callStepOf taskId etype attempt :: respStepOf taskId etype result ::
          (waitStepsOf opts attempt ++
            (tryLoop opts taskId etype ex fuel (attempt + 1) (attempts + 1)
              result.error).steps) := by
  rw [tryLoop_succ_fail opts taskId etype ex fuel attempt attempts lastError result hx hs]

theorem tryLoop_succ_thrown_steps (opts : DispatcherOptions) (taskId : String)
    (etype : ExecutorType) (ex : Executor) (fuel attempt attempts : Nat)
    (lastError : Option String) (msg : String)
    (hx : ex.exec attempt = ExecOutcome.thrown msg) :
    (tryLoop opts taskId etype ex (fuel + 1) attempt attempts lastError).steps
      = callStepOf taskId etype attempt ::
          (waitStepsOf opts attempt ++
            (tryLoop opts taskId etype ex fuel (attempt + 1) (attempts + 1)
              (some msg)).steps) := by
  rw [tryLoop_succ_thrown opts taskId etype ex fuel attempt attempts lastError msg hx]

theorem execLoop_cons_lose_steps (opts : DispatcherOptions) (reg : Registry)
    (taskId : String) (etype : ExecutorType) (rest : List ExecutorType) (attempts : Nat)
    (lastError : Option String) (ex : Executor)
    (hg : regGet reg etype = some ex) (ha : probeBool ex.avail = true)
    (hw : (tryLoop opts taskId etype ex opts.retryAttempts 1 attempts lastError).winner
      = none) :
    (execLoop opts reg taskId (etype :: rest) attempts lastError).steps
      = (tryLoop opts taskId etype ex opts.retryAttempts 1 attempts lastError).steps ++
          (execLoop opts reg taskId rest
            (tryLoop opts taskId etype ex opts.retryAttempts 1 attempts lastError).attempts
            (tryLoop opts taskId etype ex opts.retryAttempts 1 attempts
              lastError).lastError).steps := by
  rw [execLoop_cons_lose opts reg taskId etype rest attempts lastError ex hg ha hw]

/-! ## C3: the attempt count -/

/-- The attempt count returned by dispatch is the loop's counter. -/
theorem dispatch_attempts (opts : DispatcherOptions) (reg : Registry) (task : Task)
    (s e : Nat) :
    (dispatch opts reg task s e).1.attempts =
      (execLoop opts reg task.id (getExecutorOrder reg task) 0 none).attempts := by
  cases hw : (execLoop opts reg task.id (getExecutorOrder reg task) 0 none).winner with
  | some r => simp [dispatch, getExecutorOrder_update, hw]
  | none => simp [dispatch, getExecutorOrder_update, hw]

/-- A winning loop result is returned unchanged by dispatch. -/
theorem dispatch_result_some (opts : DispatcherOptions) (reg : Registry) (task : Task)
    (s e : Nat) (r : ExecutorResult)
    (hw : (execLoop opts reg task.id (getExecutorOrder reg task) 0 none).winner = some r) :
    (dispatch opts reg task s e).1.result = r := by
  simp [dispatch, getExecutorOrder_update, hw]

/-- Availability count over a cons. -/
theorem availCount_cons (reg : Registry) (t : ExecutorType) (rest : List ExecutorType) :
    availCount reg (t :: rest) =
      availCount reg rest + (if isAvailableIn reg t then 1 else 0) := by
  by_cases h : isAvailableIn reg t = true <;> simp [availCount, List.filter_cons, h]

/-- If every try of `ex` fails, the retry loop performs exactly `fuel`
tries and produces no winner. -/
theorem tryLoop_allFail (opts : DispatcherOptions) (taskId : String) (etype : ExecutorType)
    (ex : Executor) (hfail : AlwaysFails ex) :
    ∀ fuel attempt attempts lastError,
      (tryLoop opts taskId etype ex fuel attempt attempts lastError).attempts
          = attempts + fuel ∧
        (tryLoop opts taskId etype ex fuel attempt attempts lastError).winner = none := by
  intro fuel
  induction fuel with
  | zero => intro attempt attempts lastError; exact ⟨rfl, rfl⟩
  | succ n ih =>
      intro attempt attempts lastError
      cases hx : ex.exec attempt with
      | ok result =>
          have hf := hfail attempt
          rw [hx] at hf
          simp only [failedOutcome] at hf
          rw [tryLoop_succ_fail opts taskId etype ex n attempt attempts lastError result
            hx hf]
          have ihres := ih (attempt + 1) (attempts + 1) result.error
          exact ⟨by rw [ihres.1]; omega, ihres.2⟩
      | thrown msg =>
          rw [tryLoop_succ_thrown opts taskId etype ex n attempt attempts lastError msg hx]
          have ihres := ih (attempt + 1) (attempts + 1) (some msg)
          exact ⟨by rw [ihres.1]; omega, ihres.2⟩

/-- If the tries before `j` fail and try `j` succeeds with result `r`,
the retry loop entered at try `attempt ≤ j` with enough fuel performs the
tries up to `j` and wins with `r`. -/
theorem tryLoop_firstSuccess (opts : DispatcherOptions) (taskId : String)
    (etype : ExecutorType) (ex : Executor) (j : Nat) (r : ExecutorResult)
    (hj : ex.exec j = ExecOutcome.ok r) (hr : r.success = true)
    (hbefore : ∀ t, 1 ≤ t → t < j → failedOutcome (ex.exec t)) :
    ∀ fuel attempt attempts lastError,
      1 ≤ attempt → attempt ≤ j → j < attempt + fuel →
      (tryLoop opts taskId etype ex fuel attempt attempts lastError).attempts
          = attempts + (j - attempt + 1) ∧
        (tryLoop opts taskId etype ex fuel attempt attempts lastError).winner = some r := by
  intro fuel
  induction fuel with
  | zero => intro attempt attempts lastError h1 h2 h3; omega
  | succ n ih =>
      intro attempt attempts lastError h1 h2 h3
      by_cases he : attempt = j
      · rw [tryLoop_succ_win opts taskId etype ex n attempt attempts lastError r
          (by rw [he]; exact hj) hr]
        refine ⟨?_, rfl⟩
        show attempts + 1 = attempts + (j - attempt + 1)
        omega
      · have hlt : attempt < j := lt_of_le_of_ne h2 he
        have hf := hbefore attempt h1 hlt
        cases hx : ex.exec attempt with
        | ok result =>
            rw [hx] at hf
            simp only [failedOutcome] at hf
            rw [tryLoop_succ_fail opts taskId etype ex n attempt attempts lastError result
              hx hf]
            have ihres := ih (attempt + 1) (attempts + 1) result.error
              (by omega) (by omega) (by omega)
            exact ⟨by rw [ihres.1]; omega, ihres.2⟩
        | thrown msg =>
            rw [tryLoop_succ_thrown opts taskId etype ex n attempt attempts lastError
              msg hx]
            have ihres := ih (attempt + 1) (attempts + 1) (some msg)
              (by omega) (by omega) (by omega)
            exact ⟨by rw [ihres.1]; omega, ihres.2⟩

/-- If every registered executor appearing in `order` always fails, the
executor loop performs `retryAttempts` tries per available entry and
produces no winner. -/
theorem execLoop_allFail (opts : DispatcherOptions) (reg : Registry) (taskId : String) :
    ∀ order attempts lastError,
      (∀ t ex, t ∈ order → regGet reg t = some ex → AlwaysFails ex) →
      (execLoop opts reg taskId order attempts lastError).attempts
          = attempts + opts.retryAttempts * availCount reg order ∧
        (execLoop opts reg taskId order attempts lastError).winner = none := by
  intro order
  induction order with
  | nil => intro attempts lastError _; exact ⟨by simp [execLoop_nil, availCount], rfl⟩
  | cons etype rest ih =>
      intro attempts lastError hfail
      have hrest : ∀ t ex, t ∈ rest → regGet reg t = some ex → AlwaysFails ex :=
        fun t ex ht hg => hfail t ex (List.mem_cons_of_mem _ ht) hg
      cases hg : regGet reg etype with
      | none =>
          rw [execLoop_cons_none opts reg taskId etype rest attempts lastError hg,
            availCount_cons]
          have := ih attempts lastError hrest
          simp [isAvailableIn, hg, this.1, this.2]
      | some ex =>
          have hex : AlwaysFails ex := hfail etype ex (List.mem_cons_self etype rest) hg
          have htry := tryLoop_allFail opts taskId etype ex hex
            opts.retryAttempts 1 attempts lastError
          by_cases ha : probeBool ex.avail = true
          · rw [execLoop_cons_lose opts reg taskId etype rest attempts lastError ex hg ha
              htry.2]
            have ihres := ih
              (tryLoop opts taskId etype ex opts.retryAttempts 1 attempts
                lastError).attempts
              (tryLoop opts taskId etype ex opts.retryAttempts 1 attempts
                lastError).lastError hrest
            refine ⟨?_, ihres.2⟩
            rw [show ((⟨_, (execLoop opts reg taskId rest _ _).attempts, _, _⟩ :
              TryOut)).attempts = (execLoop opts reg taskId rest
                (tryLoop opts taskId etype ex opts.retryAttempts 1 attempts
                  lastError).attempts
                (tryLoop opts taskId etype ex opts.retryAttempts 1 attempts
                  lastError).lastError).attempts from rfl]
            rw [ihres.1, htry.1, availCount_cons]
            simp only [isAvailableIn, hg, ha, if_true, Nat.mul_add, Nat.mul_one]
            omega
          · simp only [Bool.not_eq_true] at ha
            rw [execLoop_cons_unavail opts reg taskId etype rest attempts lastError ex
              hg ha, availCount_cons]
            have := ih attempts lastError hrest
            simp [isAvailableIn, hg, ha, this.1, this.2]

/-- Splitting the executor loop across a winnerless prefix. -/
theorem execLoop_append_full (opts : DispatcherOptions) (reg : Registry) (taskId : String) :
    ∀ xs ys attempts lastError,
      (execLoop opts reg taskId xs attempts lastError).winner = none →
      execLoop opts reg taskId (xs ++ ys) attempts lastError
        = ⟨(execLoop opts reg taskId xs attempts lastError).steps ++
              (execLoop opts reg taskId ys
                (execLoop opts reg taskId xs attempts lastError).attempts
                (execLoop opts reg taskId xs attempts lastError).lastError).steps,
            (execLoop opts reg taskId ys
              (execLoop opts reg taskId xs attempts lastError).attempts
              (execLoop opts reg taskId xs attempts lastError).lastError).attempts,
            (execLoop opts reg taskId ys
              (execLoop opts reg taskId xs attempts lastError).attempts
              (execLoop opts reg taskId xs attempts lastError).lastError).lastError,
            (execLoop opts reg taskId ys
              (execLoop opts reg taskId xs attempts lastError).attempts
              (execLoop opts reg taskId xs attempts lastError).lastError).winner⟩ := by
  intro xs
  induction xs with
  | nil => intro ys attempts lastError _; rfl
  | cons etype rest ih =>
      intro ys attempts lastError hnone
      cases hg : regGet reg etype with
      | none =>
          rw [execLoop_cons_none opts reg taskId etype rest attempts lastError hg] at hnone
          rw [List.cons_append,
            execLoop_cons_none opts reg taskId etype (rest ++ ys) attempts lastError hg,
            execLoop_cons_none opts reg taskId etype rest attempts lastError hg]
          exact ih ys attempts lastError hnone
      | some ex =>
          by_cases ha : probeBool ex.avail = true
          · cases hw : (tryLoop opts taskId etype ex opts.retryAttempts 1 attempts
                lastError).winner with
            | some r =>
                rw [execLoop_cons_win opts reg taskId etype rest attempts lastError ex r
                  hg ha hw, hw] at hnone
                exact Option.noConfusion hnone
            | none =>
                rw [execLoop_cons_lose opts reg taskId etype rest attempts lastError ex
                  hg ha hw] at hnone
                rw [List.cons_append,
                  execLoop_cons_lose opts reg taskId etype (rest ++ ys) attempts lastError
                    ex hg ha hw,
                  execLoop_cons_lose opts reg taskId etype rest attempts lastError ex
                    hg ha hw]
                rw [ih ys _ _ hnone]
                simp [List.append_assoc]
          · simp only [Bool.not_eq_true] at ha
            rw [execLoop_cons_unavail opts reg taskId etype rest attempts lastError ex
              hg ha] at hnone
            rw [List.cons_append,
              execLoop_cons_unavail opts reg taskId etype (rest ++ ys) attempts lastError
                ex hg ha,
              execLoop_cons_unavail opts reg taskId etype rest attempts lastError ex
                hg ha]
            exact ih ys attempts lastError hnone

/-- C3: the attempt count equals the number of tries actually performed.
If every backend always fails, it is `retryAttempts` times the number of
order entries that are registered and available; if the backend after a
prefix `pre` of always-failing entries is registered, available, and first
succeeds on its `j`-th try (`1 ≤ j ≤ retryAttempts`), the count is
`retryAttempts` times the available entries of `pre` plus `j`, the winning
result is returned as the outcome, and — for an executor that labels its
results with its own identifier — the outcome's executor identifier is
that backend's. -/
theorem c3_attempt_count (opts : DispatcherOptions) (reg : Registry) (task : Task)
    (s e : Nat) :
    ((∀ t ex, regGet reg t = some ex → AlwaysFails ex) →
      (dispatch opts reg task s e).1.attempts =
        opts.retryAttempts * availCount reg (getExecutorOrder reg task)) ∧
    (∀ pre bk rest exk j r,
      getExecutorOrder reg task = pre ++ bk :: rest →
      (∀ t ex, t ∈ pre → regGet reg t = some ex → AlwaysFails ex) →
      regGet reg bk = some exk →
      probeBool exk.avail = true →
      1 ≤ j → j ≤ opts.retryAttempts →
      (∀ t, 1 ≤ t → t < j → failedOutcome (exk.exec t)) →
      exk.exec j = ExecOutcome.ok r → r.success = true → r.executor = bk →
      (dispatch opts reg task s e).1.attempts =
          opts.retryAttempts * availCount reg pre + j ∧
        (dispatch opts reg task s e).1.result = r ∧
        (dispatch opts reg task s e).1.result.executor = bk) := by
  constructor
  · intro hfail
    rw [dispatch_attempts]
    have h := execLoop_allFail opts reg task.id (getExecutorOrder reg task) 0 none
      (fun t ex _ hg => hfail t ex hg)
    rw [h.1]
    omega
  · intro pre bk rest exk j r horder hfail hreg hav h1j hjR hbefore hj hr hid
    have hpre := execLoop_allFail opts reg task.id pre 0 none hfail
    have htry := tryLoop_firstSuccess opts task.id bk exk j r hj hr hbefore
      opts.retryAttempts 1
      (execLoop opts reg task.id pre 0 none).attempts
      (execLoop opts reg task.id pre 0 none).lastError
      (le_refl 1) h1j (by omega)
    have hbkfull := execLoop_cons_win opts reg task.id bk rest
      (execLoop opts reg task.id pre 0 none).attempts
      (execLoop opts reg task.id pre 0 none).lastError exk r hreg hav htry.2
    have hsplit := execLoop_append_full opts reg task.id pre (bk :: rest) 0 none hpre.2
    have hfulla : (execLoop opts reg task.id (getExecutorOrder reg task) 0 none).attempts
        = opts.retryAttempts * availCount reg pre + j := by
      rw [horder, hsplit]
      rw [show ((⟨_, (execLoop opts reg task.id (bk :: rest) _ _).attempts, _, _⟩ :
        TryOut)).attempts = (execLoop opts reg task.id (bk :: rest)
          (execLoop opts reg task.id pre 0 none).attempts
          (execLoop opts reg task.id pre 0 none).lastError).attempts from rfl]
      rw [hbkfull, htry.1, hpre.1]
      omega
    have hfullw : (execLoop opts reg task.id (getExecutorOrder reg task) 0 none).winner
        = some r := by
      rw [horder, hsplit]
      rw [show ((⟨_, _, _, (execLoop opts reg task.id (bk :: rest) _ _).winner⟩ :
        TryOut)).winner = (execLoop opts reg task.id (bk :: rest)
          (execLoop opts reg task.id pre 0 none).attempts
          (execLoop opts reg task.id pre 0 none).lastError).winner from rfl]
      rw [hbkfull, htry.2]
    refine ⟨?_, ?_, ?_⟩
    · rw [dispatch_attempts, hfulla]
    · exact dispatch_result_some opts reg task s e r hfullw
    · rw [dispatch_result_some opts reg task s e r hfullw, hid]

def c3ExA : Executor := ⟨.codex, .ok true,
  fun _ => ExecOutcome.ok ⟨.codex, false, "", none, some "A failed", 3⟩⟩

def c3RB : ExecutorResult := ⟨.gemini, true, "answer", none, none, 7⟩

def c3ExB : Executor := ⟨.gemini, .ok true, fun _ => ExecOutcome.ok c3RB⟩

def c3Reg : Registry := [(.codex, c3ExA), (.gemini, c3ExB)]

def c3Task : Task :=
  ⟨"task-3", "p", none, some .codex, some [.codex, .gemini], .normal, .pending, none,
    none, 0, 0⟩

/-- C3 witness: the spec's concrete scenario — plan `[A, B]`, retries 2,
`A` fails both tries, `B` succeeds on try 1 — gives 3 attempts and the
outcome of backend `B`. -/
theorem c3_attempt_count_witness :
    (dispatch ⟨2, 100⟩ c3Reg c3Task 0 1).1.attempts = 3 ∧
    (dispatch ⟨2, 100⟩ c3Reg c3Task 0 1).1.result.executor = ExecutorType.gemini := by
  have h := (c3_attempt_count ⟨2, 100⟩ c3Reg c3Task 0 1).2 [ExecutorType.codex]
    ExecutorType.gemini [] c3ExB 1 c3RB rfl
    (by
      intro t ex ht hg
      have ht2 : t = ExecutorType.codex := by simpa using ht
      subst ht2
      have hg0 : regGet c3Reg ExecutorType.codex = some c3ExA := rfl
      rw [hg0] at hg
      have hg2 : c3ExA = ex := Option.some.inj hg
      subst hg2
      intro n
      simp [failedOutcome, c3ExA])
    rfl rfl (le_refl 1) (by decide)
    (by intro t h1 h2; exact absurd h2 (by omega))
    rfl rfl rfl
  refine ⟨?_, h.2.2⟩
  rw [h.1]
  decide

/-! ## C7: linear backoff discipline -/

/-- A pair whose left element is a log step satisfies the backoff
discipline provided its right element is not the call of a retry
(`t ≥ 2`). -/
theorem stepPairOk_log_of_attempt (d : Nat) (ev : LoggedEvent) (b : Step)
    (hb : ∀ t, calledAttempt b = some t → t = 1) :
    stepPairOk d (Step.log ev) b = true := by
  unfold stepPairOk
  cases hc : calledAttempt b with
  | none => simp [hc, isWaitStep]
  | some t =>
      have ht := hb t hc
      subst ht
      simp [hc, isWaitStep]

/-- The try number read off a call step. -/
theorem calledAttempt_call (taskId : String) (etype : ExecutorType) (k : Nat) :
    calledAttempt (callStepOf taskId etype k) = some k := rfl

/-- A wait of `d × (t - 1)` immediately followed by the call of try
`t ≥ 2` satisfies the backoff discipline in both directions. -/
theorem stepPairOk_wait_call (d m : Nat) (taskId : String) (etype : ExecutorType)
    (t : Nat) (h2 : 2 ≤ t) (hm : m = d * (t - 1)) :
    stepPairOk d (Step.wait m) (callStepOf taskId etype t) = true := by
  obtain ⟨k, rfl⟩ : ∃ k, t = k + 2 := ⟨t - 2, by omega⟩
  subst hm
  unfold stepPairOk
  rw [calledAttempt_call]
  simp [isWaitStep]

/-- The trace is empty or ends in a log step. -/
def lastIsLog (steps : List Step) : Prop :=
  steps = [] ∨ ∃ ev, steps.getLast? = some (Step.log ev)

/-- The trace does not begin with the call of a retry (`t ≥ 2`): its head,
if any, is either a first-try call or some other step. -/
def headNotRetry (steps : List Step) : Prop :=
  ∀ s t, steps.head? = some s → calledAttempt s = some t → t = 1

/-- A log step can be prepended to a backoff-disciplined trace that does
not begin with a retry call. -/
theorem chain'_cons_log_head (d : Nat) (ev : LoggedEvent) (steps : List Step)
    (h : List.Chain' (fun a b => stepPairOk d a b = true) steps)
    (hh : headNotRetry steps) :
    List.Chain' (fun a b => stepPairOk d a b = true) (Step.log ev :: steps) := by
  cases steps with
  | nil => exact List.chain'_singleton _
  | cons hd tl =>
      exact List.chain'_cons.2
        ⟨stepPairOk_log_of_attempt d ev hd (fun t hc => hh hd t rfl hc), h⟩

/-- Prepending a log step to a trace that is empty or ends in a log keeps
the no-trailing-wait property. -/
theorem lastNotWait_cons_log (ev : LoggedEvent) (steps : List Step)
    (h : lastIsLog steps) : lastNotWait (Step.log ev :: steps) = true := by
  cases steps with
  | nil => rfl
  | cons hd tl =>
      rcases h with hnil | ⟨ev2, hev⟩
      · exact absurd hnil (by simp)
      · unfold lastNotWait
        rw [List.getLast?_cons_cons, hev]
        rfl

/-- In a backoff-disciplined trace, every retry call (`t ≥ 2`) that does
not open the trace is immediately preceded by exactly the wait of
`d × (t - 1)`. -/
theorem retry_call_preceded_by_wait (d : Nat) (steps : List Step)
    (hchain : List.Chain' (fun a b => stepPairOk d a b = true) steps) :
    ∀ l1 tid et t l2, steps = l1 ++ callStepOf tid et t :: l2 → 2 ≤ t → l1 ≠ [] →
      ∃ l1p, l1 = l1p ++ [Step.wait (d * (t - 1))] := by
  intro l1 tid et t l2 hdec h2 hne
  rcases List.eq_nil_or_concat l1 with hnil | ⟨l1p, x, hx⟩
  · exact absurd hnil hne
  · rw [List.concat_eq_append] at hx
    subst hx
    rw [hdec, List.append_assoc, List.singleton_append] at hchain
    have hp : stepPairOk d x (callStepOf tid et t) = true :=
      (List.chain'_append_cons_cons.mp hchain).2.1
    unfold stepPairOk at hp
    rw [calledAttempt_call] at hp
    rw [Bool.and_eq_true] at hp
    have hp2 : (if (t == 1) = true then !(isWaitStep x)
        else x == Step.wait (d * (t - 1))) = true := hp.2
    have h1f : (t == 1) = false := beq_eq_false_iff_ne.mpr (by omega)
    rw [h1f] at hp2
    simp only [Bool.false_eq_true, if_false] at hp2
    exact ⟨l1p, by rw [eq_of_beq hp2]⟩

/-- Within the canonical retry loop (`attempt + fuel = retryAttempts + 1`)
the trace satisfies the pairwise backoff discipline, starts with the
current try's call step while fuel remains, and never ends on a wait. -/
theorem tryLoop_backoff (opts : DispatcherOptions) (taskId : String) (etype : ExecutorType)
    (ex : Executor) :
    ∀ fuel attempt attempts lastError,
      1 ≤ attempt → attempt + fuel = opts.retryAttempts + 1 →
      List.Chain' (fun a b => stepPairOk opts.retryDelayMs a b = true)
          (tryLoop opts taskId etype ex fuel attempt attempts lastError).steps ∧
        (1 ≤ fuel →
          (tryLoop opts taskId etype ex fuel attempt attempts lastError).steps.head?
            = some (callStepOf taskId etype attempt)) ∧
        lastIsLog (tryLoop opts taskId etype ex fuel attempt attempts lastError).steps := by
  intro fuel
  induction fuel with
  | zero =>
      intro attempt attempts lastError h1 hinv
      rw [tryLoop_zero_steps]
      exact ⟨List.chain'_nil, fun h => absurd h (by omega), Or.inl rfl⟩
  | succ n ih =>
      intro attempt attempts lastError h1 hinv
      cases hx : ex.exec attempt with
      | ok result =>
          by_cases hs : result.success = true
          · rw [tryLoop_succ_win_steps opts taskId etype ex n attempt attempts lastError
              result hx hs]
            refine ⟨?_, fun _ => rfl, Or.inr ⟨_, rfl⟩⟩
            refine List.chain'_cons.2 ⟨stepPairOk_log_of_attempt _ _ _
              (by intro t0 h; simp [calledAttempt, respStepOf] at h), ?_⟩
            refine List.chain'_cons.2 ⟨stepPairOk_log_of_attempt _ _ _
              (by intro t0 h; simp [calledAttempt, doneStepOf] at h), ?_⟩
            exact List.chain'_singleton _
          · simp only [Bool.not_eq_true] at hs
            rw [tryLoop_succ_fail_steps opts taskId etype ex n attempt attempts lastError
              result hx hs]
            by_cases hR : attempt < opts.retryAttempts
            · have hn : 1 ≤ n := by omega
              have ihres := ih (attempt + 1) (attempts + 1) result.error (by omega)
                (by omega)
              have hhead := ihres.2.1 hn
              have hws : waitStepsOf opts attempt
                  = [Step.wait (opts.retryDelayMs * attempt)] := by
                simp [waitStepsOf, hR]
              cases hrest : (tryLoop opts taskId etype ex n (attempt + 1) (attempts + 1)
                  result.error).steps with
              | nil => rw [hrest] at hhead; exact absurd hhead (by simp)
              | cons hd tl =>
                  rw [hrest] at hhead
                  have hhd : hd = callStepOf taskId etype (attempt + 1) := by
                    simpa using hhead
                  subst hhd
                  rw [hws]
                  refine ⟨?_, fun _ => rfl, ?_⟩
                  · refine List.chain'_cons.2 ⟨stepPairOk_log_of_attempt _ _ _
                      (by intro t0 h; simp [calledAttempt, respStepOf] at h), ?_⟩
                    refine List.chain'_cons.2 ⟨stepPairOk_log_of_attempt _ _ _
                      (by intro t0 h; simp [calledAttempt] at h), ?_⟩
                    refine List.chain'_cons.2 ⟨stepPairOk_wait_call _ _ _ _ _
                      (by omega) (by rw [Nat.add_sub_cancel]), ?_⟩
                    have := ihres.1
                    rw [hrest] at this
                    exact this
                  · have hlast := ihres.2.2
                    rw [hrest] at hlast
                    rcases hlast with hnil | ⟨ev, hev⟩
                    · exact absurd hnil (by simp)
                    · right
                      refine ⟨ev, ?_⟩
                      rw [show (callStepOf taskId etype attempt ::
                          respStepOf taskId etype result ::
                          ([Step.wait (opts.retryDelayMs * attempt)] ++
                            (callStepOf taskId etype (attempt + 1) :: tl))).getLast?
                          = (callStepOf taskId etype (attempt + 1) :: tl).getLast? by
                        simp only [List.singleton_append, List.getLast?_cons_cons]]
                      exact hev
            · have hn0 : n = 0 := by omega
              subst hn0
              have hws : waitStepsOf opts attempt = [] := by
                simp [waitStepsOf, hR]
              rw [hws, tryLoop_zero_steps]
              refine ⟨?_, fun _ => rfl, Or.inr ⟨_, rfl⟩⟩
              refine List.chain'_cons.2 ⟨stepPairOk_log_of_attempt _ _ _
                (by intro t0 h; simp [calledAttempt, respStepOf] at h), ?_⟩
              exact List.chain'_singleton _
      | thrown msg =>
          rw [tryLoop_succ_thrown_steps opts taskId etype ex n attempt attempts lastError
            msg hx]
          by_cases hR : attempt < opts.retryAttempts
          · have hn : 1 ≤ n := by omega
            have ihres := ih (attempt + 1) (attempts + 1) (some msg) (by omega) (by omega)
            have hhead := ihres.2.1 hn
            have hws : waitStepsOf opts attempt
                = [Step.wait (opts.retryDelayMs * attempt)] := by
              simp [waitStepsOf, hR]
            cases hrest : (tryLoop opts taskId etype ex n (attempt + 1) (attempts + 1)
                (some msg)).steps with
            | nil => rw [hrest] at hhead; exact absurd hhead (by simp)
            | cons hd tl =>
                rw [hrest] at hhead
                have hhd : hd = callStepOf taskId etype (attempt + 1) := by
                  simpa using hhead
                subst hhd
                rw [hws]
                refine ⟨?_, fun _ => rfl, ?_⟩
                · refine List.chain'_cons.2 ⟨stepPairOk_log_of_attempt _ _ _
                    (by intro t0 h; simp [calledAttempt] at h), ?_⟩
                  refine List.chain'_cons.2 ⟨stepPairOk_wait_call _ _ _ _ _
                    (by omega) (by rw [Nat.add_sub_cancel]), ?_⟩
                  have := ihres.1
                  rw [hrest] at this
                  exact this
                · have hlast := ihres.2.2
                  rw [hrest] at hlast
                  rcases hlast with hnil | ⟨ev, hev⟩
                  · exact absurd hnil (by simp)
                  · right
                    refine ⟨ev, ?_⟩
                    rw [show (callStepOf taskId etype attempt ::
                        ([Step.wait (opts.retryDelayMs * attempt)] ++
                          (callStepOf taskId etype (attempt + 1) :: tl))).getLast?
                        = (callStepOf taskId etype (attempt + 1) :: tl).getLast? by
                      simp only [List.singleton_append, List.getLast?_cons_cons]]
                    exact hev
          · have hn0 : n = 0 := by omega
            subst hn0
            have hws : waitStepsOf opts attempt = [] := by
              simp [waitStepsOf, hR]
            rw [hws, tryLoop_zero_steps]
            exact ⟨List.chain'_singleton _, fun _ => rfl, Or.inr ⟨_, rfl⟩⟩

/-- The executor loop's trace satisfies the backoff discipline, never
ends on a wait and never begins with a retry call. -/
theorem execLoop_backoff (opts : DispatcherOptions) (reg : Registry) (taskId : String) :
    ∀ order attempts lastError,
      List.Chain' (fun a b => stepPairOk opts.retryDelayMs a b = true)
          (execLoop opts reg taskId order attempts lastError).steps ∧
        lastIsLog (execLoop opts reg taskId order attempts lastError).steps ∧
        headNotRetry (execLoop opts reg taskId order attempts lastError).steps := by
  intro order
  induction order with
  | nil =>
      intro attempts lastError
      rw [show (execLoop opts reg taskId [] attempts lastError).steps = [] from rfl]
      exact ⟨List.chain'_nil, Or.inl rfl, fun s t hs _ => absurd hs (by simp)⟩
  | cons etype rest ih =>
      intro attempts lastError
      cases hg : regGet reg etype with
      | none =>
          rw [execLoop_cons_none opts reg taskId etype rest attempts lastError hg]
          exact ih attempts lastError
      | some ex =>
          by_cases ha : probeBool ex.avail = true
          · have htb := tryLoop_backoff opts taskId etype ex opts.retryAttempts 1 attempts
              lastError (le_refl 1) (by omega)
            cases hw : (tryLoop opts taskId etype ex opts.retryAttempts 1 attempts
                lastError).winner with
            | some r =>
                rw [execLoop_cons_win opts reg taskId etype rest attempts lastError ex r
                  hg ha hw]
                refine ⟨htb.1, htb.2.2, ?_⟩
                intro s t hs hc
                cases hR0 : opts.retryAttempts with
                | zero =>
                    rw [hR0] at hw
                    rw [show (tryLoop opts taskId etype ex 0 1 attempts
                      lastError).winner = none from rfl] at hw
                    exact Option.noConfusion hw
                | succ m =>
                    have hhead := htb.2.1 (by omega)
                    rw [hhead] at hs
                    have hse : s = callStepOf taskId etype 1 := (Option.some.inj hs).symm
                    subst hse
                    rw [calledAttempt_call] at hc
                    exact (Option.some.inj hc).symm
            | none =>
                rw [execLoop_cons_lose_steps opts reg taskId etype rest attempts lastError
                  ex hg ha hw]
                have ihres := ih
                  (tryLoop opts taskId etype ex opts.retryAttempts 1 attempts
                    lastError).attempts
                  (tryLoop opts taskId etype ex opts.retryAttempts 1 attempts
                    lastError).lastError
                refine ⟨?_, ?_, ?_⟩
                · refine List.Chain'.append htb.1 ihres.1 ?_
                  intro x hx y hy
                  rcases htb.2.2 with hnil | ⟨ev, hev⟩
                  · rw [hnil] at hx; simp at hx
                  · rw [hev] at hx
                    simp only [Option.mem_def, Option.some.injEq] at hx
                    rw [← hx]
                    exact stepPairOk_log_of_attempt _ _ _
                      (fun t hc => ihres.2.2 y t (Option.mem_def.mp hy) hc)
                · rcases ihres.2.1 with hnil | ⟨ev, hev⟩
                  · rw [hnil, List.append_nil]
                    exact htb.2.2
                  · right
                    refine ⟨ev, ?_⟩
                    rw [List.getLast?_append_of_ne_nil _
                      (by intro hc; rw [hc] at hev; simp at hev)]
                    exact hev
                · intro s t hs hc
                  cases hR0 : opts.retryAttempts with
                  | zero =>
                      have hts : (tryLoop opts taskId etype ex opts.retryAttempts 1
                          attempts lastError).steps = [] := by
                        rw [hR0]
                        rfl
                      rw [hts, List.nil_append] at hs
                      exact ihres.2.2 s t hs hc
                  | succ m =>
                      have hhead := htb.2.1 (by omega)
                      cases hts : (tryLoop opts taskId etype ex opts.retryAttempts 1
                          attempts lastError).steps with
                      | nil => rw [hts] at hhead; exact absurd hhead (by simp)
                      | cons hd tl =>
                          rw [hts] at hhead hs
                          rw [List.cons_append] at hs
                          have hsd : s = hd := by
                            have := hs
                            simp only [List.head?_cons, Option.some.injEq] at this
                            exact this.symm
                          subst hsd
                          have hhd : s = callStepOf taskId etype 1 := by
                            simpa using hhead
                          subst hhd
                          rw [calledAttempt_call] at hc
                          exact (Option.some.inj hc).symm
          · simp only [Bool.not_eq_true] at ha
            rw [execLoop_cons_unavail opts reg taskId etype rest attempts lastError ex
              hg ha]
            exact ih attempts lastError

/-- The dispatch trace always begins with the `task_started` log step. -/
theorem dispatch_steps_head (opts : DispatcherOptions) (reg : Registry) (task : Task)
    (s e : Nat) :
    (dispatch opts reg task s e).2.head? = some (Step.log (startEvent task)) := by
  cases hw : (execLoop opts reg task.id (getExecutorOrder reg task) 0 none).winner with
  | some r => simp [dispatch, getExecutorOrder_update, hw]
  | none => simp [dispatch, getExecutorOrder_update, hw]

/-- C7: linear backoff, in both directions.  Adjacent steps of the trace
satisfy the backoff discipline: every wait step is immediately followed by
the call of a retry `t ≥ 2` and equals `base-delay × (t - 1)`, and —
conversely — every retry call is immediately preceded by exactly that
wait, so after an unsuccessful try `t` with tries remaining the dispatcher
does wait `base-delay × t` before try `t + 1`.  A backend's first try is
never preceded by a wait (no backoff between backends) and the trace never
ends on a wait (no wait after a backend's final try).  The third conjunct
states the occurrence direction explicitly: wherever the call of try
`t ≥ 2` appears in the trace, the step just before it is the wait of
`base-delay × (t - 1)`. -/
theorem c7_linear_backoff (opts : DispatcherOptions) (reg : Registry) (task : Task)
    (s e : Nat) :
    List.Chain' (fun a b => stepPairOk opts.retryDelayMs a b = true)
      (dispatch opts reg task s e).2 ∧
    lastNotWait (dispatch opts reg task s e).2 = true ∧
    (∀ l1 et t l2,
      (dispatch opts reg task s e).2 = l1 ++ callStepOf task.id et t :: l2 → 2 ≤ t →
      ∃ l1p, l1 = l1p ++ [Step.wait (opts.retryDelayMs * (t - 1))]) := by
  have hl := execLoop_backoff opts reg task.id (getExecutorOrder reg task) 0 none
  have hmain : List.Chain' (fun a b => stepPairOk opts.retryDelayMs a b = true)
      (dispatch opts reg task s e).2 ∧
      lastNotWait (dispatch opts reg task s e).2 = true := by
    cases hw : (execLoop opts reg task.id (getExecutorOrder reg task) 0 none).winner with
    | some r =>
        have hsteps : (dispatch opts reg task s e).2 = Step.log (startEvent task) ::
            (execLoop opts reg task.id (getExecutorOrder reg task) 0 none).steps := by
          simp [dispatch, getExecutorOrder_update, hw]
        rw [hsteps]
        exact ⟨chain'_cons_log_head _ _ _ hl.1 hl.2.2, lastNotWait_cons_log _ _ hl.2.1⟩
    | none =>
        have hsteps : (dispatch opts reg task s e).2 = Step.log (startEvent task) ::
            ((execLoop opts reg task.id (getExecutorOrder reg task) 0 none).steps ++
              [Step.log ⟨.task_failed, task.id, none,
                .failed ((execLoop opts reg task.id (getExecutorOrder reg task) 0
                  none).lastError.getD "All executors failed")
                  (execLoop opts reg task.id (getExecutorOrder reg task) 0
                    none).attempts⟩]) := by
          simp [dispatch, getExecutorOrder_update, hw]
        rw [hsteps]
        refine ⟨chain'_cons_log_head _ _ _ ?_ ?_, lastNotWait_cons_log _ _ ?_⟩
        · refine List.Chain'.append hl.1 (List.chain'_singleton _) ?_
          intro x hx y hy
          rcases hl.2.1 with hnil | ⟨ev, hev⟩
          · rw [hnil] at hx; simp at hx
          · rw [hev] at hx
            simp only [Option.mem_def, Option.some.injEq] at hx
            rw [← hx]
            refine stepPairOk_log_of_attempt _ _ _ ?_
            intro t hc
            simp only [Option.mem_def, List.head?_cons, Option.some.injEq] at hy
            rw [← hy] at hc
            simp [calledAttempt] at hc
        · intro st t hs hc
          cases hls : (execLoop opts reg task.id (getExecutorOrder reg task) 0
              none).steps with
          | nil =>
              rw [hls, List.nil_append] at hs
              simp only [List.head?_cons, Option.some.injEq] at hs
              rw [← hs] at hc
              simp [calledAttempt] at hc
          | cons hd tl =>
              rw [hls, List.cons_append] at hs
              simp only [List.head?_cons, Option.some.injEq] at hs
              rw [← hs] at hc
              exact hl.2.2 hd t (by rw [hls]; rfl) hc
        · right
          exact ⟨_, List.getLast?_concat _⟩
  refine ⟨hmain.1, hmain.2, ?_⟩
  intro l1 et t l2 hdec h2
  have hne : l1 ≠ [] := by
    intro hnil
    subst hnil
    have hhead := dispatch_steps_head opts reg task s e
    rw [hdec, List.nil_append, List.head?_cons] at hhead
    simp [callStepOf, startEvent] at hhead
  exact retry_call_preceded_by_wait opts.retryDelayMs _ hmain.1 l1 task.id et t l2
    hdec h2 hne

def c7Ex : Executor := ⟨.sonnet, .ok true,
  fun n => if n == 3
    then ExecOutcome.ok ⟨.sonnet, true, "done", none, none, 7⟩
    else ExecOutcome.ok ⟨.sonnet, false, "", none, some "retry", 1⟩⟩

def c7Reg : Registry := [(.sonnet, c7Ex)]

def c7Task : Task :=
  ⟨"task-7", "p", none, some .sonnet, none, .normal, .pending, none, none, 0, 0⟩

/-- C7 witness: a concrete dispatch (retries 3, base delay 100, failures
on tries 1 and 2) whose trace really contains the backoff waits — 100 ms
after try 1 and 200 ms after try 2, each immediately before the next call
— and the theorem applied to the call of try 2 in that trace. -/
theorem c7_linear_backoff_witness :
    (dispatch ⟨3, 100⟩ c7Reg c7Task 0 1).2
      = [Step.log (startEvent c7Task),
         callStepOf "task-7" ExecutorType.sonnet 1,
         respStepOf "task-7" ExecutorType.sonnet ⟨.sonnet, false, "", none, some "retry", 1⟩,
         Step.wait 100,
         callStepOf "task-7" ExecutorType.sonnet 2,
         respStepOf "task-7" ExecutorType.sonnet ⟨.sonnet, false, "", none, some "retry", 1⟩,
         Step.wait 200,
         callStepOf "task-7" ExecutorType.sonnet 3,
         respStepOf "task-7" ExecutorType.sonnet ⟨.sonnet, true, "done", none, none, 7⟩,
         doneStepOf "task-7" ExecutorType.sonnet 3] ∧
    (∃ l1p, [Step.log (startEvent c7Task),
         callStepOf "task-7" ExecutorType.sonnet 1,
         respStepOf "task-7" ExecutorType.sonnet ⟨.sonnet, false, "", none, some "retry", 1⟩,
         Step.wait 100]
        = l1p ++ [Step.wait (100 * (2 - 1))]) := by
  refine ⟨by decide, ?_⟩
  exact (c7_linear_backoff ⟨3, 100⟩ c7Reg c7Task 0 1).2.2
    [Step.log (startEvent c7Task),
      callStepOf "task-7" ExecutorType.sonnet 1,
      respStepOf "task-7" ExecutorType.sonnet ⟨.sonnet, false, "", none, some "retry", 1⟩,
      Step.wait 100]
    ExecutorType.sonnet 2
    [respStepOf "task-7" ExecutorType.sonnet ⟨.sonnet, false, "", none, some "retry", 1⟩,
      Step.wait 200,
      callStepOf "task-7" ExecutorType.sonnet 3,
      respStepOf "task-7" ExecutorType.sonnet ⟨.sonnet, true, "done", none, none, 7⟩,
      doneStepOf "task-7" ExecutorType.sonnet 3]
    (by decide) (by decide)

/-! ## C2: shape of a task's event sequence -/

/-- The `executor_called` event of one try. -/
def callEvOf (taskId : String) (etype : ExecutorType) (attempt : Nat) : LoggedEvent :=
  ⟨.executor_called, taskId, some etype, .called attempt⟩

/-- The `executor_responded` event of one returned call. -/
def respEvOf (taskId : String) (etype : ExecutorType) (r : ExecutorResult) : LoggedEvent :=
  ⟨.executor_responded, taskId, some etype, .responded r.success r.durationMs r.usage⟩

/-- The `task_completed` event of a winning call. -/
def doneEvOf (taskId : String) (etype : ExecutorType) (attempts : Nat) : LoggedEvent :=
  ⟨.task_completed, taskId, none, .completed etype attempts⟩

/-- Wait steps carry no events. -/
theorem eventsOf_waitStepsOf (opts : DispatcherOptions) (attempt : Nat) :
    eventsOf (waitStepsOf opts attempt) = [] := by
  unfold waitStepsOf
  split <;> rfl

/-- Scanning past an event that is not an `executor_called`. -/
theorem pairedOk_cons_not_called (ev : LoggedEvent) (es : List LoggedEvent)
    (h : (ev.type == EventType.executor_called) = false) :
    pairedOk (ev :: es) = pairedOk es := by
  cases es with
  | nil => simp [pairedOk, h]
  | cons e2 tl => simp [pairedOk, h]

/-- A lone trailing `executor_called` fails the scan. -/
theorem pairedOk_called_nil (ev : LoggedEvent)
    (h : (ev.type == EventType.executor_called) = true) :
    pairedOk [ev] = false := by
  simp [pairedOk, h]

/-- Scanning an `executor_called` followed by anything. -/
theorem pairedOk_cons_called (ev e2 : LoggedEvent) (es : List LoggedEvent)
    (h : (ev.type == EventType.executor_called) = true) :
    pairedOk (ev :: e2 :: es)
      = ((e2.type == EventType.executor_responded)
          && (e2.executorType == ev.executorType) && pairedOk (e2 :: es)) := by
  simp [pairedOk, h]

/-- A call event immediately followed by its matching response scans
through to the remainder. -/
theorem pairedOk_call_resp (taskId : String) (etype : ExecutorType) (attempt : Nat)
    (r : ExecutorResult) (es : List LoggedEvent) :
    pairedOk (callEvOf taskId etype attempt :: respEvOf taskId etype r :: es)
      = pairedOk es := by
  simp [pairedOk, callEvOf, respEvOf]

/-- The pairing scan is closed under concatenation of scanned blocks. -/
theorem pairedOk_append (ys : List LoggedEvent) (hy : pairedOk ys = true) :
    ∀ xs, pairedOk xs = true → pairedOk (xs ++ ys) = true := by
  intro xs
  induction xs with
  | nil => intro _; simpa using hy
  | cons ev rest ih =>
      intro hx
      cases hcb : (ev.type == EventType.executor_called) with
      | false =>
          rw [pairedOk_cons_not_called ev rest hcb] at hx
          rw [List.cons_append, pairedOk_cons_not_called ev (rest ++ ys) hcb]
          exact ih hx
      | true =>
          cases rest with
          | nil =>
              rw [pairedOk_called_nil ev hcb] at hx
              exact absurd hx (by simp)
          | cons e2 tail =>
              rw [pairedOk_cons_called ev e2 tail hcb] at hx
              simp only [Bool.and_eq_true] at hx
              rw [List.cons_append, List.cons_append,
                pairedOk_cons_called ev e2 (tail ++ ys) hcb]
              have htail : pairedOk ((e2 :: tail) ++ ys) = true := ih hx.2
              rw [List.cons_append] at htail
              simp [hx.1.1, hx.1.2, htail]

/-- Event shape of the retry loop of a never-throwing executor: the
call/response pairing holds, a win puts exactly one terminal event — the
`task_completed` — at the end, and a winnerless run has no terminal
event. -/
theorem tryLoop_events (opts : DispatcherOptions) (taskId : String) (etype : ExecutorType)
    (ex : Executor) (hnt : ∀ n msg, ex.exec n ≠ ExecOutcome.thrown msg) :
    ∀ fuel attempt attempts lastError,
      pairedOk (eventsOf
          (tryLoop opts taskId etype ex fuel attempt attempts lastError).steps) = true ∧
        (∀ r, (tryLoop opts taskId etype ex fuel attempt attempts lastError).winner
            = some r →
          (∃ k, (eventsOf (tryLoop opts taskId etype ex fuel attempt attempts
              lastError).steps).getLast? = some (doneEvOf taskId etype k)) ∧
            ((eventsOf (tryLoop opts taskId etype ex fuel attempt attempts
              lastError).steps).filter isTerminalEvent).length = 1) ∧
        ((tryLoop opts taskId etype ex fuel attempt attempts lastError).winner = none →
          ((eventsOf (tryLoop opts taskId etype ex fuel attempt attempts
            lastError).steps).filter isTerminalEvent).length = 0) := by
  intro fuel
  induction fuel with
  | zero =>
      intro attempt attempts lastError
      refine ⟨rfl, ?_, fun _ => rfl⟩
      intro r h
      rw [show (tryLoop opts taskId etype ex 0 attempt attempts lastError).winner
        = none from rfl] at h
      exact Option.noConfusion h
  | succ n ih =>
      intro attempt attempts lastError
      cases hx : ex.exec attempt with
      | thrown msg => exact absurd hx (hnt attempt msg)
      | ok result =>
          by_cases hs : result.success = true
          · have hsteps := tryLoop_succ_win_steps opts taskId etype ex n attempt attempts
              lastError result hx hs
            have hwin : (tryLoop opts taskId etype ex (n + 1) attempt attempts
                lastError).winner = some result := by
              rw [tryLoop_succ_win opts taskId etype ex n attempt attempts lastError
                result hx hs]
            have hevents : eventsOf (tryLoop opts taskId etype ex (n + 1) attempt attempts
                lastError).steps = [callEvOf taskId etype attempt,
                  respEvOf taskId etype result, doneEvOf taskId etype (attempts + 1)] := by
              rw [hsteps]
              rfl
            refine ⟨?_, ?_, ?_⟩
            · rw [hevents, pairedOk_call_resp,
                pairedOk_cons_not_called (doneEvOf taskId etype (attempts + 1)) [] rfl]
              rfl
            · intro r hr
              rw [hevents]
              exact ⟨⟨attempts + 1, rfl⟩, by
                simp [List.filter_cons, isTerminalEvent, callEvOf, respEvOf, doneEvOf]⟩
            · intro hnone
              rw [hwin] at hnone
              exact Option.noConfusion hnone
          · simp only [Bool.not_eq_true] at hs
            have hsteps := tryLoop_succ_fail_steps opts taskId etype ex n attempt attempts
              lastError result hx hs
            have hwinner : (tryLoop opts taskId etype ex (n + 1) attempt attempts
                lastError).winner = (tryLoop opts taskId etype ex n (attempt + 1)
                  (attempts + 1) result.error).winner := by
              rw [tryLoop_succ_fail opts taskId etype ex n attempt attempts lastError
                result hx hs]
            have ihres := ih (attempt + 1) (attempts + 1) result.error
            have hevents : eventsOf (tryLoop opts taskId etype ex (n + 1) attempt attempts
                lastError).steps = callEvOf taskId etype attempt ::
                  respEvOf taskId etype result ::
                    eventsOf (tryLoop opts taskId etype ex n (attempt + 1) (attempts + 1)
                      result.error).steps := by
              rw [hsteps]
              rw [show callStepOf taskId etype attempt = Step.log
                (callEvOf taskId etype attempt) from rfl]
              rw [show respStepOf taskId etype result = Step.log
                (respEvOf taskId etype result) from rfl]
              rw [eventsOf_log_cons, eventsOf_log_cons, eventsOf_append,
                eventsOf_waitStepsOf]
              rfl
            refine ⟨?_, ?_, ?_⟩
            · rw [hevents, pairedOk_call_resp]
              exact ihres.1
            · intro r hr
              rw [hwinner] at hr
              obtain ⟨⟨k, hlast⟩, hcount⟩ := ihres.2.1 r hr
              refine ⟨⟨k, ?_⟩, ?_⟩
              · rw [hevents, List.getLast?_cons_cons]
                cases htail : eventsOf (tryLoop opts taskId etype ex n (attempt + 1)
                    (attempts + 1) result.error).steps with
                | nil => rw [htail] at hlast; exact absurd hlast (by simp)
                | cons hd tl =>
                    rw [htail] at hlast
                    rw [List.getLast?_cons_cons]
                    exact hlast
              · rw [hevents]
                simp [List.filter_cons, isTerminalEvent, callEvOf, respEvOf, hcount]
            · intro hnone
              rw [hwinner] at hnone
              have hcount := ihres.2.2 hnone
              rw [hevents]
              simp [List.filter_cons, isTerminalEvent, callEvOf, respEvOf, hcount]

/-- Event shape of the executor loop under a never-throwing registry. -/
theorem execLoop_events (opts : DispatcherOptions) (reg : Registry) (taskId : String)
    (hnt : NoThrow reg) :
    ∀ order attempts lastError,
      pairedOk (eventsOf (execLoop opts reg taskId order attempts lastError).steps)
          = true ∧
        (∀ r, (execLoop opts reg taskId order attempts lastError).winner = some r →
          (∃ et k, (eventsOf (execLoop opts reg taskId order attempts
              lastError).steps).getLast? = some (doneEvOf taskId et k)) ∧
            ((eventsOf (execLoop opts reg taskId order attempts
              lastError).steps).filter isTerminalEvent).length = 1) ∧
        ((execLoop opts reg taskId order attempts lastError).winner = none →
          ((eventsOf (execLoop opts reg taskId order attempts
            lastError).steps).filter isTerminalEvent).length = 0) := by
  intro order
  induction order with
  | nil =>
      intro attempts lastError
      refine ⟨rfl, ?_, fun _ => rfl⟩
      intro r h
      rw [show (execLoop opts reg taskId [] attempts lastError).winner = none
        from rfl] at h
      exact Option.noConfusion h
  | cons etype rest ih =>
      intro attempts lastError
      cases hg : regGet reg etype with
      | none =>
          rw [execLoop_cons_none opts reg taskId etype rest attempts lastError hg]
          exact ih attempts lastError
      | some ex =>
          have hexnt : ∀ n msg, ex.exec n ≠ ExecOutcome.thrown msg :=
            fun n msg => hnt etype ex n msg hg
          by_cases ha : probeBool ex.avail = true
          · have htl := tryLoop_events opts taskId etype ex hexnt opts.retryAttempts 1
              attempts lastError
            cases hw : (tryLoop opts taskId etype ex opts.retryAttempts 1 attempts
                lastError).winner with
            | some r =>
                rw [execLoop_cons_win opts reg taskId etype rest attempts lastError ex r
                  hg ha hw]
                obtain ⟨⟨k, hlast⟩, hcount⟩ := htl.2.1 r hw
                refine ⟨htl.1, fun r2 _ => ⟨⟨etype, k, hlast⟩, hcount⟩, ?_⟩
                intro hnone
                rw [hw] at hnone
                exact Option.noConfusion hnone
            | none =>
                have hsteps := execLoop_cons_lose_steps opts reg taskId etype rest attempts
                  lastError ex hg ha hw
                have hwfull : (execLoop opts reg taskId (etype :: rest) attempts
                    lastError).winner = (execLoop opts reg taskId rest
                      (tryLoop opts taskId etype ex opts.retryAttempts 1 attempts
                        lastError).attempts
                      (tryLoop opts taskId etype ex opts.retryAttempts 1 attempts
                        lastError).lastError).winner := by
                  rw [execLoop_cons_lose opts reg taskId etype rest attempts lastError ex
                    hg ha hw]
                have ihres := ih
                  (tryLoop opts taskId etype ex opts.retryAttempts 1 attempts
                    lastError).attempts
                  (tryLoop opts taskId etype ex opts.retryAttempts 1 attempts
                    lastError).lastError
                have hevents : eventsOf (execLoop opts reg taskId (etype :: rest) attempts
                    lastError).steps = eventsOf (tryLoop opts taskId etype ex
                      opts.retryAttempts 1 attempts lastError).steps ++
                      eventsOf (execLoop opts reg taskId rest
                        (tryLoop opts taskId etype ex opts.retryAttempts 1 attempts
                          lastError).attempts
                        (tryLoop opts taskId etype ex opts.retryAttempts 1 attempts
                          lastError).lastError).steps := by
                  rw [hsteps, eventsOf_append]
                have h0 := htl.2.2 hw
                refine ⟨?_, ?_, ?_⟩
                · rw [hevents]
                  exact pairedOk_append _ ihres.1 _ htl.1
                · intro r hr
                  rw [hwfull] at hr
                  obtain ⟨⟨et, k, hlast⟩, hcount⟩ := ihres.2.1 r hr
                  refine ⟨⟨et, k, ?_⟩, ?_⟩
                  · rw [hevents, List.getLast?_append_of_ne_nil _
                      (by intro hc; rw [hc] at hlast; simp at hlast)]
                    exact hlast
                  · rw [hevents, List.filter_append, List.length_append, h0, hcount]
                · intro hnone
                  rw [hwfull] at hnone
                  have hcount := ihres.2.2 hnone
                  rw [hevents, List.filter_append, List.length_append, h0, hcount]
          · simp only [Bool.not_eq_true] at ha
            rw [execLoop_cons_unavail opts reg taskId etype rest attempts lastError ex
              hg ha]
            exact ih attempts lastError

/-- C2 (amended): for every completed dispatch in which every executor
call returns rather than throws, the task's event sequence starts with
`task_started`, ends with exactly one terminal event (`task_completed` or
`task_failed`), and every `executor_called` is immediately followed by a
matching `executor_responded` before any further `executor_called`.  (When
a call throws, the source skips the `executor_responded` log, so the
pairing clause holds only for returning calls — see the counterexample.) -/
theorem c2_event_shape (opts : DispatcherOptions) (reg : Registry) (task : Task)
    (s e : Nat) (hnt : NoThrow reg) :
    (eventsOf (dispatch opts reg task s e).2).head? = some (startEvent task) ∧
    (∃ last, (eventsOf (dispatch opts reg task s e).2).getLast? = some last ∧
      isTerminalEvent last = true) ∧
    ((eventsOf (dispatch opts reg task s e).2).filter isTerminalEvent).length = 1 ∧
    pairedOk (eventsOf (dispatch opts reg task s e).2) = true := by
  have hle := execLoop_events opts reg task.id hnt (getExecutorOrder reg task) 0 none
  cases hw : (execLoop opts reg task.id (getExecutorOrder reg task) 0 none).winner with
  | some r =>
      have hsteps : (dispatch opts reg task s e).2 = Step.log (startEvent task) ::
          (execLoop opts reg task.id (getExecutorOrder reg task) 0 none).steps := by
        simp [dispatch, getExecutorOrder_update, hw]
      obtain ⟨⟨et, k, hlast⟩, hcount⟩ := hle.2.1 r hw
      rw [hsteps, eventsOf_log_cons]
      refine ⟨rfl, ?_, ?_, ?_⟩
      · refine ⟨doneEvOf task.id et k, ?_, rfl⟩
        cases htail : eventsOf (execLoop opts reg task.id (getExecutorOrder reg task) 0
            none).steps with
        | nil => rw [htail] at hlast; exact absurd hlast (by simp)
        | cons hd tl =>
            rw [htail] at hlast
            rw [List.getLast?_cons_cons]
            exact hlast
      · simp [List.filter_cons, isTerminalEvent, startEvent, hcount]
      · rw [pairedOk_cons_not_called (startEvent task) _ rfl]
        exact hle.1
  | none =>
      have hsteps : (dispatch opts reg task s e).2 = Step.log (startEvent task) ::
          ((execLoop opts reg task.id (getExecutorOrder reg task) 0 none).steps ++
            [Step.log ⟨.task_failed, task.id, none,
              .failed ((execLoop opts reg task.id (getExecutorOrder reg task) 0
                none).lastError.getD "All executors failed")
                (execLoop opts reg task.id (getExecutorOrder reg task) 0
                  none).attempts⟩]) := by
        simp [dispatch, getExecutorOrder_update, hw]
      have hcount := hle.2.2 hw
      rw [hsteps, eventsOf_log_cons, eventsOf_append, eventsOf_single_log]
      refine ⟨rfl, ?_, ?_, ?_⟩
      · refine ⟨⟨.task_failed, task.id, none,
          .failed ((execLoop opts reg task.id (getExecutorOrder reg task) 0
            none).lastError.getD "All executors failed")
            (execLoop opts reg task.id (getExecutorOrder reg task) 0
              none).attempts⟩, ?_, rfl⟩
        rw [← List.cons_append]
        exact List.getLast?_concat _
      · simp [List.filter_cons, List.filter_append, isTerminalEvent, startEvent, hcount]
      · rw [pairedOk_cons_not_called (startEvent task) _ rfl]
        exact pairedOk_append [⟨.task_failed, task.id, none,
          .failed ((execLoop opts reg task.id (getExecutorOrder reg task) 0
            none).lastError.getD "All executors failed")
            (execLoop opts reg task.id (getExecutorOrder reg task) 0
              none).attempts⟩] rfl _ hle.1

def c2ThrowEx : Executor := ⟨.sonnet, .ok true, fun _ => ExecOutcome.thrown "boom"⟩

def c2ThrowReg : Registry := [(.sonnet, c2ThrowEx)]

def c2ThrowTask : Task :=
  ⟨"task-2", "p", none, some .sonnet, none, .normal, .pending, none, none, 0, 0⟩

/-- C2 (counterexample): when the executor's execute call throws, no
`executor_responded` is logged: with two retries the completed dispatch's
event sequence is `task_started, executor_called(1), executor_called(2),
task_failed` — an `executor_called` immediately followed by another
`executor_called`, refuting the claim's pairing clause for thrown calls. -/
theorem c2_event_shape_counterexample :
    eventsOf (dispatch ⟨2, 10⟩ c2ThrowReg c2ThrowTask 0 1).2 =
      [⟨.task_started, "task-2", none, .started "p"⟩,
       ⟨.executor_called, "task-2", some .sonnet, .called 1⟩,
       ⟨.executor_called, "task-2", some .sonnet, .called 2⟩,
       ⟨.task_failed, "task-2", none, .failed "boom" 2⟩] ∧
    pairedOk (eventsOf (dispatch ⟨2, 10⟩ c2ThrowReg c2ThrowTask 0 1).2) = false := by
  exact ⟨by decide, by decide⟩

def c2OkEx : Executor := ⟨.sonnet, .ok true,
  fun n => if n == 1
    then ExecOutcome.ok ⟨.sonnet, false, "", none, some "first try failed", 2⟩
    else ExecOutcome.ok ⟨.sonnet, true, "done", none, none, 2⟩⟩

def c2OkReg : Registry := [(.sonnet, c2OkEx)]

def c2OkTask : Task :=
  ⟨"task-2b", "p", none, some .sonnet, none, .normal, .pending, none, none, 0, 0⟩

/-- C2 witness: the amended theorem applied to a concrete never-throwing
registry whose executor fails once and then succeeds. -/
theorem c2_event_shape_witness :
    (eventsOf (dispatch ⟨3, 10⟩ c2OkReg c2OkTask 0 1).2).head?
        = some (startEvent c2OkTask) ∧
      ((eventsOf (dispatch ⟨3, 10⟩ c2OkReg c2OkTask 0 1).2).filter
        isTerminalEvent).length = 1 ∧
      pairedOk (eventsOf (dispatch ⟨3, 10⟩ c2OkReg c2OkTask 0 1).2) = true := by
  have hnt : NoThrow c2OkReg := by
    intro t ex n msg hg
    cases t with
    | sonnet =>
        have h0 : regGet c2OkReg ExecutorType.sonnet = some c2OkEx := rfl
        rw [h0] at hg
        have hex : c2OkEx = ex := Option.some.inj hg
        subst hex
        by_cases hn : n = 1 <;> simp [c2OkEx, hn]
    | codex =>
        rw [show regGet c2OkReg ExecutorType.codex = none from rfl] at hg
        exact Option.noConfusion hg
    | gemini =>
        rw [show regGet c2OkReg ExecutorType.gemini = none from rfl] at hg
        exact Option.noConfusion hg
  have h := c2_event_shape ⟨3, 10⟩ c2OkReg c2OkTask 0 1 hnt
  exact ⟨h.1, h.2.2.1, h.2.2.2⟩

/-! ## C5: no exception escapes except sink failures -/

/-- Sequencing after a successful `Except` computation. -/
theorem bindOk {α β : Type} (a : α) (f : α → Except String β) :
    (do let x ← Except.ok a; f x) = f a := rfl

/-- With a sink that accepts every event, the fallible retry loop agrees
with the pure one and never fails. -/
theorem tryLoopE_accept (opts : DispatcherOptions) (taskId : String) (etype : ExecutorType)
    (ex : Executor) :
    ∀ fuel attempt attempts lastError,
      tryLoopE opts (fun _ => true) taskId etype ex fuel attempt attempts lastError =
        Except.ok (tryLoop opts taskId etype ex fuel attempt attempts lastError) := by
  intro fuel
  induction fuel with
  | zero => intro attempt attempts lastError; rfl
  | succ n ih =>
      intro attempt attempts lastError
      simp only [tryLoopE, tryLoop, logEventE, if_true]
      cases hx : ex.exec attempt with
      | ok result =>
          by_cases hs : result.success = true
          · simp [hs, ih, bindOk]
          · simp only [Bool.not_eq_true] at hs
            simp [hs, ih, bindOk]
      | thrown msg => simp [ih, bindOk]

/-- With a sink that accepts every event, the fallible executor loop
agrees with the pure one and never fails. -/
theorem execLoopE_accept (opts : DispatcherOptions) (reg : Registry) (taskId : String) :
    ∀ order attempts lastError,
      execLoopE opts reg (fun _ => true) taskId order attempts lastError =
        Except.ok (execLoop opts reg taskId order attempts lastError) := by
  intro order
  induction order with
  | nil => intro attempts lastError; rfl
  | cons etype rest ih =>
      intro attempts lastError
      simp only [execLoopE, execLoop]
      cases hg : regGet reg etype with
      | none => exact ih _ _
      | some ex =>
          by_cases ha : probeBool ex.avail = true
          · simp only [ha, if_true, tryLoopE_accept]
            cases hw : (tryLoop opts taskId etype ex opts.retryAttempts 1 attempts
                lastError).winner with
            | some r => simp [hw, bindOk, pure, Except.pure]
            | none => simp [hw, ih, bindOk]
          · simp only [Bool.not_eq_true] at ha
            simp only [ha, Bool.false_eq_true, if_false]
            exact ih _ _

/-- C5: for every behaviour of the executors (probes and execute calls may
fail or throw arbitrarily), dispatch with a working event sink never
raises: it returns exactly the pure dispatch result; a failed dispatch
carries a human-readable error description, and the attempt count is
non-negative.  Only sink failures can surface, since the sink is the sole
failure source of the fallible model. -/
theorem c5_no_raise (opts : DispatcherOptions) (reg : Registry) (task : Task) (s e : Nat) :
    dispatchE opts reg (fun _ => true) task s e = Except.ok (dispatch opts reg task s e) ∧
    ((dispatch opts reg task s e).1.result.success = false →
      ((dispatch opts reg task s e).1.result.error).isSome = true) ∧
    0 ≤ (dispatch opts reg task s e).1.attempts := by
  refine ⟨?_, ?_, Nat.zero_le _⟩
  · simp only [dispatchE, dispatch, logEventE, if_true, execLoopE_accept,
      getExecutorOrder_update]
    cases hw : (execLoop opts reg task.id (getExecutorOrder reg task) 0 none).winner with
    | some r => simp [hw, bindOk]
    | none => simp [hw, logEventE, bindOk]
  · intro h
    rw [dispatch_failed_result opts reg task s e h]
    rfl

/-- C5 witness: the theorem applied at a concrete all-fail dispatch, whose
failed result indeed carries an error description. -/
theorem c5_no_raise_witness :
    dispatchE ⟨1, 10⟩ c4Reg (fun _ => true) c4Task 0 1 =
      Except.ok (dispatch ⟨1, 10⟩ c4Reg c4Task 0 1) ∧
    ((dispatch ⟨1, 10⟩ c4Reg c4Task 0 1).1.result.error).isSome = true := by
  have h := c5_no_raise ⟨1, 10⟩ c4Reg c4Task 0 1
  exact ⟨h.1, h.2.1 (by decide)⟩

/-! ## C8: dispatchAll order and completeness -/

/-- The sequential loop of `dispatchAll` produces the same results as
mapping `dispatch` over the tasks. -/
theorem dispatchAllSeq_eq_map (opts : DispatcherOptions) (reg : Registry) (s e : Nat) :
    ∀ tasks, dispatchAllSeq opts reg s e tasks =
      tasks.map (fun t => dispatch opts reg t s e) := by
  intro tasks
  induction tasks with
  | nil => rfl
  | cons t ts ih => simp [dispatchAllSeq, ih]

/-- C8: in both modes, `dispatchAll` returns exactly one result per input
task and the i-th result is the dispatch of the i-th task; in sequential
mode an earlier failed task cannot prevent later tasks, since every
position is dispatched unconditionally. -/
theorem c8_dispatchAll_order (opts : DispatcherOptions) (reg : Registry) (tasks : List Task)
    (parallel : Bool) (s e : Nat) :
    (dispatchAll opts reg tasks parallel s e).length = tasks.length ∧
    ∀ i : Nat, (dispatchAll opts reg tasks parallel s e)[i]? =
      (tasks[i]?).map (fun t => dispatch opts reg t s e) := by
  have hmap : dispatchAll opts reg tasks parallel s e =
      tasks.map (fun t => dispatch opts reg t s e) := by
    unfold dispatchAll
    split
    · rfl
    · exact dispatchAllSeq_eq_map opts reg s e tasks
  rw [hmap]
  exact ⟨List.length_map _ _, fun i => List.getElem?_map _ _ _⟩

/-! ## C9: frame of dispatch on the task and status monotonicity -/

/-- C9: dispatch changes only the task's `status` and `updatedAt`: every
other field is returned unchanged, the final status is exactly one of the
two terminal values (so the task never returns to `pending` and the
transition follows pending → running → terminal), and the terminal value
is `completed` precisely when the returned outcome succeeded. -/
theorem c9_frame (opts : DispatcherOptions) (reg : Registry) (task : Task) (s e : Nat) :
    ((dispatch opts reg task s e).1.task.id = task.id ∧
     (dispatch opts reg task s e).1.task.prompt = task.prompt ∧
     (dispatch opts reg task s e).1.task.systemPrompt = task.systemPrompt ∧
     (dispatch opts reg task s e).1.task.preferredExecutor = task.preferredExecutor ∧
     (dispatch opts reg task s e).1.task.fallbackExecutors = task.fallbackExecutors ∧
     (dispatch opts reg task s e).1.task.priority = task.priority ∧
     (dispatch opts reg task s e).1.task.parentId = task.parentId ∧
     (dispatch opts reg task s e).1.task.metadata = task.metadata ∧
     (dispatch opts reg task s e).1.task.createdAt = task.createdAt) ∧
    ((dispatch opts reg task s e).1.task.status = TaskStatus.completed ∨
     (dispatch opts reg task s e).1.task.status = TaskStatus.failed) ∧
    ((dispatch opts reg task s e).1.task.status = TaskStatus.completed ↔
     (dispatch opts reg task s e).1.result.success = true) := by
  cases hw : (execLoop opts reg task.id (getExecutorOrder reg task) 0 none).winner with
  | some r =>
      have hr := execLoop_winner_success opts reg task.id _ _ _ _ hw
      have htask : (dispatch opts reg task s e).1.task =
          { task with status := TaskStatus.completed, updatedAt := e } := by
        simp [dispatch, getExecutorOrder_update, hw]
      have hres : (dispatch opts reg task s e).1.result = r := by
        simp [dispatch, getExecutorOrder_update, hw]
      rw [htask, hres]
      refine ⟨⟨rfl, rfl, rfl, rfl, rfl, rfl, rfl, rfl, rfl⟩, Or.inl rfl, ?_⟩
      simpa using hr
  | none =>
      have htask : (dispatch opts reg task s e).1.task =
          { task with status := TaskStatus.failed, updatedAt := e } := by
        simp [dispatch, getExecutorOrder_update, hw]
      have hres : (dispatch opts reg task s e).1.result =
          mkFailureResult task
            (execLoop opts reg task.id (getExecutorOrder reg task) 0 none).lastError :=
        dispatch_result_none opts reg task s e hw
      rw [htask, hres]
      refine ⟨⟨rfl, rfl, rfl, rfl, rfl, rfl, rfl, rfl, rfl⟩, Or.inr rfl, ?_⟩
      simp [mkFailureResult]

end Orpheus
